import Mathlib

/-!
# Verification of the DnsLibs rule engine ("dnsfilter") against its specification

This file shallowly embeds the parts of the repository that the specification
talks about:

* `src/dnsfilter/src/filter.cpp` — the multi-table rule index
  (`put_hash_into_tables`, `load_line`, `filter::load`), the matcher
  (`match_shortcuts`, `match_pattern`, `match_adblock_modifiers`,
  `match_against_line`, `is_unique_rule`, `match_by_file_position`, the four
  `search_*` passes and `filter::match`), and the outdatedness check
  (`check_filter_outdated`);
* `src/dnsfilter/src/rule_utils.cpp` — the rule parser (`rule_utils::parse`,
  `parse_adblock_rule`, `parse_host_file_rule`, `extract_match_info`,
  `remove_port`, `is_valid_port`, `is_too_wide_rule`,
  `get_text_without_badfilter`, `get_regex`, modifier parsing);
* `src/common/src/file.cpp` — `ag::file::for_each_line`.

Strings are embedded as `List Char`.  External collaborators that are not part
of the repository excerpt (the PCRE wrapper `ag::regex`, `ag::socket_address`,
`ldns_get_rr_type_by_name`, the `dnsrewrite` parameter parser and the 32-bit
string hash `ag::utils::hash`) are passed in as explicit oracle parameters, so
every theorem quantifies over their behaviour (or instantiates them concretely
in a witness).  `ag::utils` string helpers (`trim`, `split_by`, …) whose
definitions are not part of the excerpt are modelled from the specification;
each such definition says so in its doc comment.
-/

namespace DnsLibs

/-- Strings of the C++ code are embedded as lists of characters. -/
abbrev Str := List Char

/-- Convenience: build a `Str` from a Lean string literal. -/
def str (s : String) : Str := s.toList

/-! ## Generic string searching (std::string_view::find and friends) -/

/-- `pat` occurs in `s` at position `p` (and fits inside `s`).  This is the
declarative counterpart of `std::string_view::find` succeeding at `p`. -/
def occursAt (pat s : Str) (p : Nat) : Prop :=
  p + pat.length ≤ s.length ∧ pat <+: s.drop p

instance (pat s : Str) (p : Nat) : Decidable (occursAt pat s p) := by
  unfold occursAt; infer_instance

/-- `std::string_view::find(pat, seek)`: index of the first occurrence of
`pat` at a position `≥ seek`, or `none` (= `npos`). -/
def strFind (pat s : Str) (seek : Nat) : Option Nat :=
  (List.range (s.length + 1)).find? (fun i => Nat.ble seek i && pat.isPrefixOf (s.drop i))

/-- `std::string_view::find(c)`: index of the first occurrence of character
`c`, or `none` (= `npos`). -/
def findChar (c : Char) : Str → Option Nat
  | [] => none
  | x :: xs => if x == c then some 0 else (findChar c xs).map (· + 1)

/-- `std::string_view::rfind(c)`: index of the last occurrence of character
`c`, or `none` (= `npos`). -/
def rfindChar (c : Char) (s : Str) : Option Nat :=
  (findChar c s.reverse).map (fun i => s.length - 1 - i)

/-! ## `match_shortcuts` (filter.cpp lines 509-520)

```
static inline bool match_shortcuts(const std::vector<std::string> &shortcuts, std::string_view domain) {
    size_t seek = 0;
    bool found = false;
    for (const std::string &sc : shortcuts) {
        found = domain.npos != domain.find(sc, seek);
        if (!found) break;
        seek += sc.length();
    }
    return found;
}
```
-/

/-- The loop body of `match_shortcuts`: `found` is the value of the local
variable entering the iteration (it is returned when the list is exhausted). -/
def matchShortcutsLoop (domain : Str) : List Str → Nat → Bool → Bool
  | [], _, found => found
  | sc :: rest, seek, _ =>
    match strFind sc domain seek with
    | none => false
    | some _ => matchShortcutsLoop domain rest (seek + sc.length) true

/-- `match_shortcuts` from filter.cpp. -/
def match_shortcuts (shortcuts : List Str) (domain : Str) : Bool :=
  matchShortcutsLoop domain shortcuts 0 false

/-- Sum of the lengths of a list of strings. -/
def lenSum (parts : List Str) : Nat := (parts.map List.length).sum

/-- The procedure described by the specification sentence for `SHORTCUTS`
(refinement target, modelled from the spec's words, *not* from the code):
every part is searched for in order and **each search starts at the position
where the previous part's match ended** (previous match position plus that
part's length). -/
def specShortcutsSearch (domain : Str) : List Str → Nat → Bool
  | [], _ => true
  | sc :: rest, seek =>
    match strFind sc domain seek with
    | none => false
    | some p => specShortcutsSearch domain rest (p + sc.length)

/-! ## Facts about `strFind` -/

theorem isPrefixOf_drop_iff_occursAt {pat s : Str} {i : Nat} (hi : i ≤ s.length) :
    pat.isPrefixOf (s.drop i) = true ↔ occursAt pat s i := by
  rw [List.isPrefixOf_iff_prefix]
  constructor
  · intro h
    refine ⟨?_, h⟩
    have := h.length_le
    simp only [List.length_drop] at this
    omega
  · exact fun h => h.2

theorem strFind_isSome_iff {pat s : Str} {seek : Nat} :
    (strFind pat s seek).isSome = true ↔ ∃ p, seek ≤ p ∧ occursAt pat s p := by
  rw [strFind, List.find?_isSome]
  constructor
  · rintro ⟨i, hmem, hpred⟩
    rw [List.mem_range] at hmem
    rw [Bool.and_eq_true] at hpred
    refine ⟨i, by exact Nat.le_of_ble_eq_true hpred.1, ?_⟩
    exact (isPrefixOf_drop_iff_occursAt (by omega)).mp hpred.2
  · rintro ⟨p, hseek, hocc⟩
    have hp : p ≤ s.length := by
      have := hocc.1; omega
    refine ⟨p, by rw [List.mem_range]; omega, ?_⟩
    rw [Bool.and_eq_true]
    exact ⟨Nat.ble_eq_true_of_le hseek, (isPrefixOf_drop_iff_occursAt hp).mpr hocc⟩

/-! ## Models of `ag::utils` string helpers

The `ag::utils` string helpers (`ag_utils.h`) are repository code that is not
part of the excerpt; they are modelled here from the specification and from
how the excerpt uses them. -/

/-- The C locale `isspace` set. -/
def isSpaceChar (c : Char) : Bool :=
  c == ' ' || c == '\t' || c == '\n' || c == '\r' || c == Char.ofNat 11 || c == Char.ofNat 12

/-- Modelled from the spec: `ag::utils::ltrim` — strip leading whitespace. -/
def ltrim (s : Str) : Str := s.dropWhile isSpaceChar

/-- Modelled from the spec: `ag::utils::rtrim` — strip trailing whitespace. -/
def rtrim (s : Str) : Str := (s.reverse.dropWhile isSpaceChar).reverse

/-- Modelled from the spec: `ag::utils::trim` — strip whitespace at both ends
("empty after trimming" in §4.1 of the spec). -/
def ag_trim (s : Str) : Str := ltrim (rtrim s)

/-- Modelled from the spec: `ag::utils::to_lower` — lowercase a string
(`matching_parts` is "an ordered sequence of lowercased byte strings"). -/
def toLowerStr (s : Str) : Str := s.map Char.toLower

/-- Modelled from the spec: `ag::utils::split_by` — split on a delimiter,
omitting empty tokens (the excerpt's uses, e.g. `parse_dnstype_modifier`'s
`types.empty()` check and its unguarded `t.front()`, require empty tokens to
be dropped). -/
def splitBy (s : Str) (d : Char) : List Str :=
  (s.splitOn d).filter (fun t => !t.isEmpty)

/-- Modelled from the spec: `ag::utils::split_by_any_of` — split on any of a
set of delimiter characters, omitting empty tokens. -/
def splitByAnyOf (s : Str) (ds : List Char) : List Str :=
  (s.splitOnP (fun c => ds.contains c)).filter (fun t => !t.isEmpty)

/-- Modelled from the spec: `ag::utils::rsplit2_by` — split in two at the
*last* occurrence of the delimiter (dropping it); if the delimiter does not
occur, the second half is empty. -/
def rsplit2By (s : Str) (d : Char) : Str × Str :=
  match rfindChar d s with
  | none => (s, [])
  | some p => (s.take p, s.drop (p + 1))

/-- Modelled from the spec: `ag::utils::split2_by` — split in two at the
*first* occurrence of the delimiter (dropping it). -/
def split2By (s : Str) (d : Char) : Str × Str :=
  match findChar d s with
  | none => (s, [])
  | some p => (s.take p, s.drop (p + 1))

/-! ## `rule_utils.cpp`: pattern anchors and stripping

`match_info::pattern_mode` is a bitset over
`{MPM_LINE_START_ASSERTED, MPM_DOMAIN_START_ASSERTED, MPM_LINE_END_ASSERTED}`;
it is embedded as a structure of three booleans (the code only ever sets,
tests and clears individual bits). -/

structure PatternMode where
  lineStart : Bool
  domainStart : Bool
  lineEnd : Bool
deriving DecidableEq, Repr

/-- The empty `pattern_mode` (no anchor asserted). -/
def pmNone : PatternMode := ⟨false, false, false⟩

/-- Bitwise-or of two pattern modes (`|=` in the code). -/
def PatternMode.or (a b : PatternMode) : PatternMode :=
  ⟨a.lineStart || b.lineStart, a.domainStart || b.domainStart, a.lineEnd || b.lineEnd⟩

/-- `pattern_exact`: `pattern_mode == (MPM_LINE_START_ASSERTED | MPM_LINE_END_ASSERTED)`. -/
def pattern_exact (m : PatternMode) : Bool := m == ⟨true, false, true⟩

/-- `pattern_subdomains`: `pattern_mode == (MPM_DOMAIN_START_ASSERTED | MPM_LINE_END_ASSERTED)`. -/
def pattern_subdomains (m : PatternMode) : Bool := m == ⟨false, true, true⟩

/-- `SKIPPABLE_PREFIXES` from rule_utils.cpp, in source order. -/
def skippablePrefixes : List Str :=
  [str "https://", str "http://", str "http*://", str "ws://", str "wss://",
   str "ws*://", str "://", str "//"]

/-- `SPECIAL_SUFFIXES` from rule_utils.cpp. -/
def specialSuffixes : List Str := [str "|", str "^", str "/"]

/-- `remove_skippable_prefixes`: strip the first matching URL scheme marker
and assert domain-start. -/
def removeSkippable (rule : Str) : PatternMode × Str :=
  match skippablePrefixes.find? (fun p => p.isPrefixOf rule) with
  | some p => (⟨false, true, false⟩, rule.drop p.length)
  | none => (pmNone, rule)

/-- `remove_special_prefixes`: strip `||` (domain-start) or a leading `|`
(line-start).  (`rule.front()` on an empty view is undefined behaviour in the
source; it is modelled as reading a space.) -/
def removeSpecialPre (rule : Str) : PatternMode × Str :=
  if (str "||").isPrefixOf rule then (⟨false, true, false⟩, rule.drop 2)
  else if rule.headD ' ' == '|' then (⟨true, false, false⟩, rule.drop 1)
  else (pmNone, rule)

/-- The loop of `remove_special_suffixes`: repeatedly strip a suffix from the
remaining candidate set, erasing each stripped suffix from the set.  The fuel
equals the candidate count, which bounds the number of iterations. -/
def removeSuffLoop : Nat → Str → List Str → Bool → Bool × Str
  | 0, rule, _, r => (r, rule)
  | fuel + 1, rule, cands, r =>
    match cands.find? (fun suf => suf.isSuffixOf rule) with
    | none => (r, rule)
    | some suf => removeSuffLoop fuel (rule.take (rule.length - suf.length)) (cands.erase suf) true

/-- `remove_special_suffixes`: strip each of `|`, `^`, `/` at most once from
the end; returns whether line-end was asserted. -/
def removeSpecialSuffixes (rule : Str) : Bool × Str :=
  removeSuffLoop specialSuffixes.length rule specialSuffixes false

/-- `is_valid_port` (rule_utils.cpp lines 347-350): at most five characters,
all decimal digits. -/
def is_valid_port (p : Str) : Bool :=
  decide (p.length ≤ 5) && p.all Char.isDigit

/-- `remove_port` (rule_utils.cpp lines 352-366):

```
size_t rpos = rule.rfind(':');
if (rpos == npos) return 0;
size_t fpos = rule.find(':');
if (fpos == rpos && (fpos != rule.length() - 1) && is_valid_port(rule.substr(fpos + 1))) {
    rule = rule.substr(0, fpos);
    return MPM_LINE_END_ASSERTED;
} else if (fpos > 0 && rule[fpos - 1] == ']' && rule[0] == '[') { // IPv6
    rule = rule.substr(1, rpos - 2);
    return MPM_LINE_START_ASSERTED | MPM_LINE_END_ASSERTED;
}
return 0;
```
-/
def remove_port (rule : Str) : PatternMode × Str :=
  match rfindChar ':' rule, findChar ':' rule with
  | some rpos, some fpos =>
    if fpos == rpos && !(fpos == rule.length - 1) && is_valid_port (rule.drop (fpos + 1)) then
      (⟨false, false, true⟩, rule.take fpos)
    else if decide (0 < fpos) && rule.getD (fpos - 1) ' ' == ']' && rule.headD ' ' == '[' then
      (⟨true, false, true⟩, (rule.drop 1).take (rpos - 2))
    else (pmNone, rule)
  | _, _ => (pmNone, rule)

/-- `check_regex`: the text is `/…/`. -/
def check_regex (s : Str) : Bool :=
  decide (s.length > 1) && s.headD ' ' == '/' && s.getLastD ' ' == '/'

/-- `match_info` from rule_utils.h (fields used by the excerpt). -/
structure MatchInfo where
  text : Str
  is_regex_rule : Bool
  has_wildcard : Bool
  mode : PatternMode
deriving DecidableEq, Repr

/-- `extract_match_info` (rule_utils.cpp lines 369-396). -/
def extract_match_info (rule : Str) : MatchInfo :=
  if check_regex rule then
    { text := (rule.drop 1).dropLast, is_regex_rule := true, has_wildcard := false, mode := pmNone }
  else
    let (m1, t1) := removeSpecialPre rule
    let (m2, t2) := removeSkippable t1
    let m12 := m1.or m2
    let m12 :=
      if m12.domainStart && m12.lineStart then { m12 with domainStart := false } else m12
    let (e3, t3) := removeSpecialSuffixes t2
    let m3 : PatternMode := ⟨false, false, e3⟩
    let (m4, t4) := remove_port t3
    { text := t4, is_regex_rule := false, has_wildcard := t4.contains '*',
      mode := (m12.or m3).or m4 }

/-- `MAX_DOMAIN_LENGTH` (RFC 1035). -/
def MAX_DOMAIN_LENGTH : Nat := 255

/-- `MAX_LABEL_LENGTH` (RFC 1034). -/
def MAX_LABEL_LENGTH : Nat := 63

/-- `MAX_IPADDR_LENTH` (sic) from rule_utils.cpp. -/
def MAX_IPADDR_LENTH : Nat := 45

/-- `check_domain_pattern_labels`: every dot-separated label is at most 63
characters long. -/
def check_domain_pattern_labels (domain : Str) : Bool :=
  (splitBy domain '.').all (fun label => decide (label.length ≤ MAX_LABEL_LENGTH))

/-- `check_domain_pattern_charset`: letters, digits, `.`, `-`, `*`, `_`. -/
def check_domain_pattern_charset (domain : Str) : Bool :=
  domain.all (fun c => c.isAlpha || c.isDigit || c == '.' || c == '-' || c == '*' || c == '_')

/-- `is_valid_domain_pattern`. -/
def is_valid_domain_pattern (domain : Str) : Bool :=
  decide (domain.length ≤ MAX_DOMAIN_LENGTH)
    && check_domain_pattern_charset domain && check_domain_pattern_labels domain

/-- The C locale `isxdigit`. -/
def isXDigit (c : Char) : Bool :=
  c.isDigit || (decide ('a' ≤ c) && decide (c ≤ 'f')) || (decide ('A' ≤ c) && decide (c ≤ 'F'))

/-- `is_valid_ip_pattern`. -/
def is_valid_ip_pattern (s : Str) : Bool :=
  !s.isEmpty && decide (s.length ≤ MAX_IPADDR_LENTH)
    && s.all (fun c => isXDigit c || c == '.' || c == ':' || c == '[' || c == ']' || c == '*')

/-! ## Rules and modifiers -/

/-- `rule_utils::rule::match_method_id`. -/
inductive MatchMethod
  | MMID_EXACT
  | MMID_SUBDOMAINS
  | MMID_SHORTCUTS
  | MMID_SHORTCUTS_AND_REGEX
  | MMID_REGEX
deriving DecidableEq, Repr

/-- The adblock rule property bitset (`ag::dnsfilter::adblock_rule_props`). -/
structure Props where
  exception : Bool := false
  important : Bool := false
  badfilter : Bool := false
  dnstype : Bool := false
  dnsrewrite : Bool := false
deriving DecidableEq, Repr

/-- `rule_utils::dnstype_info::match_mode`. -/
inductive DnstypeMode
  | DTMM_ENABLE
  | DTMM_EXCLUDE
deriving DecidableEq, Repr

/-- `rule_utils::dnstype_info`. -/
structure DnstypeInfo where
  types : List Nat
  mode : DnstypeMode
deriving DecidableEq, Repr

/-- The part of `rule_utils::dnsrewrite_info` consulted by the matcher:
the resource-record type of the rewrite target. -/
structure DnsrewriteInfo where
  rrtype : Nat
deriving DecidableEq, Repr

/-- The `content` variant of `ag::dnsfilter::rule`:
`adblock_rule_info` (property set plus the optional parsed `$dnsrewrite`
parameters) or `etc_hosts_rule_info` (the IP literal). -/
inductive RuleContent
  | adblock (props : Props) (dnsrewrite : Option DnsrewriteInfo)
  | etcHosts (ip : Str)
deriving DecidableEq, Repr

/-- `rule_utils::rule` (public part flattened in). -/
structure Rule where
  text : Str
  content : RuleContent
  match_method : MatchMethod
  matching_parts : List Str
  dnstype : Option DnstypeInfo
deriving DecidableEq, Repr

/-- The property set of a rule (empty for hosts rules). -/
def Rule.props (r : Rule) : Props :=
  match r.content with
  | .adblock p _ => p
  | .etcHosts _ => {}

/-- The parsed `$dnsrewrite` parameters of a rule (none for hosts rules). -/
def Rule.dnsrewriteInfo (r : Rule) : Option DnsrewriteInfo :=
  match r.content with
  | .adblock _ d => d
  | .etcHosts _ => none

/-- LDNS resource-record type codes used by the excerpt. -/
def LDNS_RR_TYPE_A : Nat := 1

def LDNS_RR_TYPE_CNAME : Nat := 5

def LDNS_RR_TYPE_PTR : Nat := 12

def LDNS_RR_TYPE_AAAA : Nat := 28

/-- External collaborators of the excerpt, passed in as oracles:
`ag::socket_address` / `ag::utils` IP parsing, the PCRE wrapper `ag::regex`,
`ldns_get_rr_type_by_name`, and `rule_utils::parse_dnsrewrite_modifier`
(whose definition is outside the excerpt). -/
structure Oracles where
  /-- `ag::utils::str_to_socket_address(str).valid()` (used by `is_ip`). -/
  isIp : Str → Bool
  /-- `ag::utils::is_valid_ip4`. -/
  isValidIp4 : Str → Bool
  /-- `ag::utils::is_valid_ip6`. -/
  isValidIp6 : Str → Bool
  /-- `ag::socket_address{text, 0}.valid()`. -/
  sockAddrValid : Str → Bool
  /-- `ag::utils::addr_to_str(addr.addr())` — canonicalise an IP literal. -/
  addrToStr : Str → Str
  /-- `ag::regex(re).is_valid()`. -/
  regexValid : Str → Bool
  /-- `ag::regex(re).match(subject)`. -/
  regexMatch : Str → Str → Bool
  /-- The `SHORTCUT_REGEXES` replacement pipeline applied to the pattern text
  before shortcut extraction (each is an `ag::regex::replace`). -/
  shortcutStrip : Str → Str
  /-- `ldns_get_rr_type_by_name`; `0` means "unknown type". -/
  getRrType : Str → Nat
  /-- `rule_utils::parse_dnsrewrite_modifier`: `none` = parse failure,
  `some o` = success storing `o` into `params->dnsrewrite`. -/
  parseDnsrewrite : Str → Option (Option DnsrewriteInfo)

/-- Adjacent-duplicate test: the excerpt checks
`list.end() != std::unique(list.begin(), list.end())`, which detects only
*adjacent* duplicates. -/
def hasAdjDup : List Nat → Bool
  | a :: b :: rest => a == b || hasAdjDup (b :: rest)
  | _ => false

/-- The per-type loop of `parse_dnstype_modifier` (rule_utils.cpp lines
208-233), folding the enabled/excluded lists. -/
def dnstypeLoop (O : Oracles) : List Str → List Nat → List Nat → Option (List Nat × List Nat)
  | [], enabled, excluded => some (enabled, excluded)
  | t :: rest, enabled, excluded =>
    let isEnabled := !(t.headD ' ' == '~')
    let t' := if isEnabled then t else t.drop 1
    let ty := O.getRrType t'
    if ty == 0 then none
    else
      let listToCheck := if isEnabled then excluded else enabled
      if listToCheck.contains ty then none
      else
        let enabled' := if isEnabled then enabled ++ [ty] else enabled
        let excluded' := if isEnabled then excluded else excluded ++ [ty]
        let listToInsert := if isEnabled then enabled' else excluded'
        if hasAdjDup listToInsert then none
        else dnstypeLoop O rest enabled' excluded'

/-- `parse_dnstype_modifier` (rule_utils.cpp lines 187-240). -/
def parse_dnstype_modifier (O : Oracles) (r : Rule) (params : Str) : Option Rule :=
  if params.isEmpty && !r.props.exception then none
  else
    let types := splitBy params '|'
    if types.isEmpty && !params.isEmpty then none
    else
      match dnstypeLoop O types [] [] with
      | none => none
      | some (enabled, excluded) =>
        let info : DnstypeInfo :=
          if !enabled.isEmpty then ⟨enabled, .DTMM_ENABLE⟩ else ⟨excluded, .DTMM_EXCLUDE⟩
        some { r with dnstype := some info }

/-- Store a parsed `$dnsrewrite` result into the rule's adblock parameters. -/
def setDnsrewrite (r : Rule) (o : Option DnsrewriteInfo) : Rule :=
  match r.content with
  | .adblock p _ => { r with content := .adblock p o }
  | .etcHosts _ => r

/-- Set one property bit of an adblock rule. -/
def setProp (r : Rule) (f : Props → Props) : Rule :=
  match r.content with
  | .adblock p d => { r with content := .adblock (f p) d }
  | .etcHosts _ => r

/-- The four descriptors of `SUPPORTED_MODIFIERS`, in source order. -/
inductive ModDescr
  | important
  | badfilter
  | dnstype
  | dnsrewrite
deriving DecidableEq, Repr

/-- The `name` field of a modifier descriptor. -/
def ModDescr.nameStr : ModDescr → Str
  | .important => str "important"
  | .badfilter => str "badfilter"
  | .dnstype => str "dnstype"
  | .dnsrewrite => str "dnsrewrite"

/-- Whether the descriptor has a `parse_modifier_params` function. -/
def ModDescr.hasParams : ModDescr → Bool
  | .important => false
  | .badfilter => false
  | .dnstype => true
  | .dnsrewrite => true

/-- Whether the rule already carries the descriptor's property bit. -/
def ModDescr.testProp : ModDescr → Props → Bool
  | .important, p => p.important
  | .badfilter, p => p.badfilter
  | .dnstype, p => p.dnstype
  | .dnsrewrite, p => p.dnsrewrite

/-- Set the descriptor's property bit. -/
def ModDescr.setPropBit : ModDescr → Props → Props
  | .important, p => { p with important := true }
  | .badfilter, p => { p with badfilter := true }
  | .dnstype, p => { p with dnstype := true }
  | .dnsrewrite, p => { p with dnsrewrite := true }

/-- Run a descriptor's parameter parser. -/
def runModParser (O : Oracles) (d : ModDescr) (r : Rule) (params : Str) : Option Rule :=
  match d with
  | .dnstype => parse_dnstype_modifier O r params
  | .dnsrewrite =>
    match O.parseDnsrewrite params with
    | none => none
    | some o => some (setDnsrewrite r o)
  | _ => some r

/-- Result of scanning `SUPPORTED_MODIFIERS` for one modifier token. -/
inductive ScanResult
  | fail
  | notFound
  | found (d : ModDescr) (r : Rule)

/-- The inner descriptor loop of `extract_modifiers` (rule_utils.cpp lines
253-285) for one modifier token. -/
def scanDescrs (O : Oracles) (modifier : Str) (r : Rule) : List ModDescr → ScanResult
  | [] => .notFound
  | d :: rest =>
    if !d.nameStr.isPrefixOf modifier then scanDescrs O modifier r rest
    else if decide (modifier.length > d.nameStr.length)
            && !(modifier.getD d.nameStr.length ' ' == '=') then
      scanDescrs O modifier r rest
    else if decide (modifier.length > d.nameStr.length) && !d.hasParams then
      .fail
    else if !d.hasParams then
      .found d r
    else if modifier.length == d.nameStr.length + 1 then
      .fail
    else
      let startPos :=
        if modifier.length > d.nameStr.length then d.nameStr.length + 1 else d.nameStr.length
      match runModParser O d r (modifier.drop startPos) with
      | none => .fail
      | some r' => .found d r'

/-- The outer token loop of `extract_modifiers` (rule_utils.cpp lines
243-300). -/
def modifiersLoop (O : Oracles) : List Str → Rule → Option Rule
  | [], r => some r
  | modifier :: rest, r =>
    match scanDescrs O modifier r [.important, .badfilter, .dnstype, .dnsrewrite] with
    | .fail => none
    | .notFound => none
    | .found d r' =>
      if d.testProp r'.props then none
      else modifiersLoop O rest (setProp r' d.setPropBit)

/-- `extract_modifiers`. -/
def extract_modifiers (O : Oracles) (r : Rule) (modifiersStr : Str) : Option Rule :=
  if modifiersStr.isEmpty then some r
  else modifiersLoop O (splitBy modifiersStr ',') r

/-! ## Regex shortcut extraction and regex synthesis -/

/-- `SPECIAL_REGEX_CHARACTERS` from rule_utils.cpp. -/
def specialRegexChars : Str := str "\\^$*+?.()|[]\x7b\x7d"

/-- `SPEC_SEQS` from `skip_special_chars`. -/
def specSeqs : List Str :=
  [str "\\n", str "\\r", str "\\t",
   str "\\d", str "\\D", str "\\w", str "\\W", str "\\s", str "\\S",
   str "\\b", str "\\B", str "\\<", str "\\>", str "\\A", str "\\Z"]

/-- `skip_special_chars` (rule_utils.cpp lines 413-439). -/
def skip_special_chars (s : Str) : Str :=
  if s.isEmpty then s
  else
    let seq := (specSeqs.find? (fun i => i.isPrefixOf s)).getD []
    s.drop (max seq.length 1)

/-- The loop of `extract_regex_shortcuts`, with fuel: every iteration on a
non-empty text strictly shortens it, so `text.length` iterations suffice. -/
def extractShortcutsLoop : Nat → Str → List Str
  | 0, _ => []
  | fuel + 1, text =>
    if text.isEmpty then []
    else
      let seek := (text.findIdx? (fun c => specialRegexChars.contains c)).getD text.length
      let pushed := if decide (0 < seek) then [text.take seek] else []
      let tail := text.drop (min text.length seek)
      pushed ++ extractShortcutsLoop fuel (skip_special_chars tail)

/-- `extract_regex_shortcuts` (rule_utils.cpp lines 441-454).  (`find_first_of`
returning `npos` compares `> 0` and `substr` truncates, so the whole text is
pushed when no special character occurs.) -/
def extract_regex_shortcuts (text : Str) : List Str :=
  extractShortcutsLoop text.length text

/-- The `*`/`.` escaping loop at the end of `get_regex` (rule_utils.cpp lines
604-621): `*` becomes `.*` and `.` becomes `\.`. -/
def escapeStarsDots (re : Str) : Str :=
  (re.map (fun ch => if ch == '*' then [ '.', ch] else if ch == '.' then ['\\', ch] else [ch])).flatten

/-- `rule_utils::get_regex` (rule_utils.cpp lines 578-624). -/
def get_regex (r : Rule) : Str :=
  let text := if (str "@@").isPrefixOf r.text then r.text.drop 2 else r.text
  let text :=
    if !(text.headD ' ' == '/' && text.getLastD ' ' == '/') then (rsplit2By text '$').1 else text
  let info := extract_match_info text
  if info.is_regex_rule then info.text
  else
    let pre :=
      if info.mode.lineStart then str "^"
      else if info.mode.domainStart then str "^(*.)?" else []
    let suf := if info.mode.lineEnd then str "$" else []
    escapeStarsDots (pre ++ info.text ++ suf)

/-- `rule_utils::get_text_without_badfilter` (rule_utils.cpp lines 626-643).
The prefix/suffix views into the original buffer are reproduced with
`take`/`drop` on the rule text (the layout is `parts.1 ++ "$" ++ parts.2`).
When `"badfilter"` does not occur after the last `$` the source reads out of
bounds; that case is unreachable for rules carrying `$badfilter` and is
modelled as returning the text unchanged.  `suffix.front()` on an empty
suffix (also undefined behaviour) is modelled as reading a space. -/
def get_text_without_badfilter (text : Str) : Str :=
  let parts := rsplit2By text '$'
  match strFind (str "badfilter") parts.2 0 with
  | none => text
  | some bfPos =>
    let afterBf := bfPos + (str "badfilter").length
    let pre := text.take (parts.1.length + 1 + bfPos)
    let suf := parts.2.drop afterBf
    if pre.getLastD ' ' == ',' || (suf.isEmpty && pre.getLastD ' ' == '$') then
      pre.dropLast ++ suf
    else if suf.headD ' ' == ',' && pre.getLastD ' ' == '$' then
      pre ++ suf.drop 1
    else pre ++ suf

/-! ## The rule parser (`rule_utils::parse`) -/

/-- `is_host_rule` (rule_utils.cpp lines 398-402). -/
def is_host_rule (O : Oracles) (s : Str) : Bool :=
  let parts := splitByAnyOf s [' ', '\t']
  decide (parts.length > 1) && (O.isValidIp4 (parts.headD []) || O.isValidIp6 (parts.headD []))

/-- `rule_utils::is_domain_name` (rule_utils.cpp lines 144-151). -/
def is_domain_name (O : Oracles) (s : Str) : Bool :=
  !s.isEmpty && !O.isIp s && !(s.getLastD ' ' == '.') && !(s.headD ' ' == '.')
    && is_valid_domain_pattern s && !s.contains '*'

/-- `make_exact_domain_name_rule` (rule_utils.cpp lines 405-411); the
remaining aggregate-initialised fields are value-initialised. -/
def make_exact_domain_name_rule (name : Str) : Rule :=
  { text := name, content := .adblock {} none, match_method := .MMID_EXACT,
    matching_parts := [toLowerStr name], dnstype := none }

/-- The per-domain loop of `parse_host_file_rule` (rule_utils.cpp lines
166-176): empty tokens are skipped, a token that is neither a valid domain
pattern nor contains `*` rejects the line, the rest are lowercased. -/
def hostPartsLoop : List Str → Option (List Str)
  | [] => some []
  | d :: rest =>
    if d.isEmpty then hostPartsLoop rest
    else if !is_valid_domain_pattern d && !(d.contains '*') then none
    else (hostPartsLoop rest).map (toLowerStr d :: ·)

/-- `parse_host_file_rule` (rule_utils.cpp lines 154-184). -/
def parse_host_file_rule (O : Oracles) (s0 : Str) : Option Rule :=
  let s := rtrim (s0.take ((findChar '#' s0).getD s0.length))
  let parts := splitByAnyOf s [' ', '\t']
  if decide (parts.length < 2) then none
  else if !(O.isValidIp4 (parts.headD []) || O.isValidIp6 (parts.headD [])) then none
  else
    match hostPartsLoop (parts.drop 1) with
    | none => none
    | some mps =>
      if mps.isEmpty then none
      else some { text := s, content := .etcHosts (parts.headD []),
                  match_method := .MMID_SUBDOMAINS, matching_parts := mps, dnstype := none }

/-- The pattern half and the modifiers half of an adblock line
(rule_utils.cpp lines 467-477): strip `@@`, then split at the last `$`
unless the text is a `/…/` regex. -/
def adblockSplit (origStr : Str) : Str × Str :=
  let s := if (str "@@").isPrefixOf origStr then origStr.drop 2 else origStr
  if check_regex s then (s, []) else rsplit2By s '$'

/-- `is_too_wide_rule` (rule_utils.cpp lines 456-462): no `$dnstype` /
`$dnsrewrite` property and the stripped pattern is shorter than 3 characters
or consists only of `.` and `*`. -/
def is_too_wide_rule (props : Props) (mi : MatchInfo) : Bool :=
  !props.dnstype && !props.dnsrewrite
    && (decide (mi.text.length < 3) || mi.text.all (fun c => c == '.' || c == '*'))

/-- The final `match_method` choice of `parse_adblock_rule` (rule_utils.cpp
lines 522-544): a `?` in the body forces `REGEX`; otherwise the
`SHORTCUT_REGEXES`-stripped body yields shortcuts (`SHORTCUTS_AND_REGEX`) or
none (`REGEX`). -/
def chooseRegexMethod (O : Oracles) (r2 : Rule) (s : Str) : Rule :=
  if s.contains '?' then { r2 with match_method := .MMID_REGEX }
  else
    let stripped := O.shortcutStrip s
    let shortcuts := extract_regex_shortcuts stripped
    if !shortcuts.isEmpty then
      { r2 with match_method := .MMID_SHORTCUTS_AND_REGEX,
                matching_parts := shortcuts.map toLowerStr }
    else { r2 with match_method := .MMID_REGEX }

theorem chooseRegexMethod_content (O : Oracles) (r2 : Rule) (s : Str) :
    (chooseRegexMethod O r2 s).content = r2.content := by
  unfold chooseRegexMethod
  split
  · rfl
  · dsimp only
    split <;> rfl

theorem Rule.props_content_eq {X Y : Rule} (h : X.content = Y.content) : X.props = Y.props := by
  rw [Rule.props, Rule.props, h]

/-- `parse_adblock_rule` (rule_utils.cpp lines 464-554). -/
def parse_adblock_rule (O : Oracles) (origStr : Str) : Option Rule :=
  let is_exception := (str "@@").isPrefixOf origStr
  let halves := adblockSplit origStr
  let mi := extract_match_info halves.1
  let s := mi.text
  if !mi.is_regex_rule && !is_valid_domain_pattern s && !is_valid_ip_pattern s then none
  else
    let r0 : Rule := { text := [], content := .adblock { exception := is_exception } none,
                       match_method := .MMID_EXACT, matching_parts := [], dnstype := none }
    match extract_modifiers O r0 halves.2 with
    | none => none
    | some r1 =>
      if is_too_wide_rule r1.props mi then none
      else
        let r2 := { r1 with text := origStr }
        if r2.props.badfilter then some r2
        else
          let exactP := pattern_exact mi.mode
          let subsP := pattern_subdomains mi.mode
          if !mi.is_regex_rule && exactP && O.sockAddrValid mi.text then
            some { r2 with match_method := .MMID_EXACT,
                           matching_parts := [O.addrToStr mi.text] }
          else if !mi.is_regex_rule && !mi.has_wildcard && (exactP || subsP) then
            some { r2 with
                   match_method := if exactP then .MMID_EXACT else .MMID_SUBDOMAINS,
                   matching_parts := [toLowerStr s] }
          else if !mi.is_regex_rule && mi.mode == pmNone then
            some { r2 with match_method := .MMID_SHORTCUTS,
                           matching_parts := (splitBy s '*').map toLowerStr }
          else
            let r3 := chooseRegexMethod O r2 s
            if !(O.regexValid (get_regex r3)) then none else some r3

/-- Modelled from the spec: `rule_utils::is_comment` (rule_utils.h is not in
the excerpt) — a comment line starts with `!` or `#`. -/
def is_comment (s : Str) : Bool :=
  s.headD ' ' == '!' || s.headD ' ' == '#'

/-- `rule_utils::parse` (rule_utils.cpp lines 556-576). -/
def rule_parse (O : Oracles) (line : Str) : Option Rule :=
  if is_comment line then none
  else
    let s := ag_trim line
    if s.isEmpty then none
    else if is_domain_name O s then some (make_exact_domain_name_rule s)
    else if is_host_rule O s then parse_host_file_rule O s
    else parse_adblock_rule O s

/-! ## The matcher (filter.cpp) -/

/-- `filter::match_context` (filter.h): the matching host, its subdomain
list, the accumulator of matched rules and the query RR type. -/
structure MatchCtx where
  host : Str
  subdomains : List Str
  matched_rules : List Rule
  rr_type : Nat
deriving Repr

/-- `adblock_modifiers_match_status` (filter.cpp lines 455-462). -/
inductive AMMS
  | AMMS_NOT_MATCHED
  | AMMS_MATCH_CANDIDATE
  | AMMS_MATCHED_SURELY
deriving DecidableEq, Repr

/-- `match_adblock_modifiers` (filter.cpp lines 464-507).  `rule.dnstype`
is accessed with `.value()` in the source; for parser-produced rules the
`DNSTYPE` property implies the field is set, and the unreachable empty case
is modelled as an empty ENABLE set (which never matches). -/
def match_adblock_modifiers (r : Rule) (rrType : Nat) : AMMS :=
  if r.props.badfilter then .AMMS_MATCHED_SURELY
  else if r.props.dnstype then
    let dt := r.dnstype.getD ⟨[], .DTMM_ENABLE⟩
    match dt.mode with
    | .DTMM_ENABLE =>
      if dt.types.contains rrType then .AMMS_MATCH_CANDIDATE else .AMMS_NOT_MATCHED
    | .DTMM_EXCLUDE =>
      if dt.types.contains rrType then .AMMS_NOT_MATCHED else .AMMS_MATCH_CANDIDATE
  else if r.props.dnsrewrite then
    match r.dnsrewriteInfo with
    | some dr =>
      if (dr.rrtype == LDNS_RR_TYPE_A && !(rrType == LDNS_RR_TYPE_A))
          || (dr.rrtype == LDNS_RR_TYPE_AAAA && !(rrType == LDNS_RR_TYPE_AAAA))
          || (dr.rrtype == LDNS_RR_TYPE_PTR && !(rrType == LDNS_RR_TYPE_PTR))
          || (dr.rrtype == LDNS_RR_TYPE_CNAME
              && !(rrType == LDNS_RR_TYPE_A) && !(rrType == LDNS_RR_TYPE_AAAA)) then
        .AMMS_NOT_MATCHED
      else .AMMS_MATCH_CANDIDATE
    | none => .AMMS_MATCH_CANDIDATE
  else .AMMS_MATCH_CANDIDATE

/-- `match_pattern` (filter.cpp lines 522-560). -/
def match_pattern (O : Oracles) (r : Rule) (host : Str) (subdomains : List Str) : Bool :=
  match r.match_method with
  | .MMID_EXACT => r.matching_parts.contains host
  | .MMID_SUBDOMAINS =>
    r.matching_parts.any (fun part => subdomains.any (fun sd => sd == part))
  | .MMID_SHORTCUTS => match_shortcuts r.matching_parts host
  | .MMID_SHORTCUTS_AND_REGEX =>
    if match_shortcuts r.matching_parts host then O.regexMatch (get_regex r) host else false
  | .MMID_REGEX => subdomains.any (fun sd => O.regexMatch (get_regex r) sd)

/-- The body of `match_against_line` after a successful parse: screen adblock
rules by their modifiers, then match the pattern; on a match the rule's
public part is appended to the accumulator. -/
def match_parsed_rule (O : Oracles) (ctx : MatchCtx) (r : Rule) : Bool × MatchCtx :=
  let modStatus : Option AMMS :=
    match r.content with
    | .adblock _ _ => some (match_adblock_modifiers r ctx.rr_type)
    | .etcHosts _ => none
  match modStatus with
  | some .AMMS_NOT_MATCHED => (false, ctx)
  | some .AMMS_MATCHED_SURELY =>
    (true, { ctx with matched_rules := ctx.matched_rules ++ [r] })
  | _ =>
    let m := match_pattern O r ctx.host ctx.subdomains
    (m, if m then { ctx with matched_rules := ctx.matched_rules ++ [r] } else ctx)

/-- `filter::impl::match_against_line` (filter.cpp lines 562-592): parse the
line; an unparsable line matches nothing. -/
def match_against_line (O : Oracles) (ctx : MatchCtx) (line : Str) : Bool × MatchCtx :=
  ((rule_parse O line).map (match_parsed_rule O ctx)).getD (false, ctx)

/-- `is_unique_rule` (filter.cpp lines 594-597): the candidate line equals no
accumulated rule's text. -/
def is_unique_rule (rules : List Rule) (line : Str) : Bool :=
  rules.all (fun r => !(line == r.text))

/-! ## The index tables (filter.cpp)

The khash tables are embedded as association lists with unique keys:
lookup returns the mapped value, insert overwrites an existing mapping
(`kh_put` + `kh_value(...) = v`), erase removes the key (`kh_del`). -/

/-- `kh_get`: the value mapped to a key, if any. -/
def tblLookup {α : Type} : List (Nat × α) → Nat → Option α
  | [], _ => none
  | e :: rest, h => if e.1 == h then some e.2 else tblLookup rest h

/-- `kh_del`: drop a key. -/
def tblErase {α : Type} (t : List (Nat × α)) (h : Nat) : List (Nat × α) :=
  t.filter (fun e => !(e.1 == h))

/-- `kh_put` followed by assigning `kh_value`: map the key to the value,
overwriting any previous mapping.  (The excerpt observes the tables only
through `kh_get`, so the position of the entry is immaterial.) -/
def tblInsert {α : Type} (t : List (Nat × α)) (h : Nat) (v : α) : List (Nat × α) :=
  tblErase t h ++ [(h, v)]

/-- `kh_hash_to_unique_index_t`: 32-bit hash → file index. -/
abbrev UniqueTable := List (Nat × Nat)

/-- `kh_hash_to_indexes_t`: 32-bit hash → list of file indexes. -/
abbrev MultiTable := List (Nat × List Nat)

/-- `filter::impl::put_hash_into_tables` (filter.cpp lines 161-208):

* hash present in the multi table → append the index to its vector;
* hash absent from both → store it in the unique table;
* hash present in the unique table only → delete it there and create a multi
  entry holding the previously stored index followed by the new one.

(The out-of-memory early returns of the source are not modelled.) -/
def put_hash_into_tables (h fileIdx : Nat) (unique : UniqueTable) (multi : MultiTable) :
    UniqueTable × MultiTable :=
  match tblLookup multi h with
  | some positions => (unique, tblInsert multi h (positions ++ [fileIdx]))
  | none =>
    match tblLookup unique h with
    | none => (tblInsert unique h fileIdx, multi)
    | some storedIdx =>
      (tblErase unique h, tblInsert multi h [storedIdx, fileIdx])

/-! ## Loading (filter.cpp `load_line` / `filter::load`)

The memory accounting uses a few machine constants that are not observable in
the excerpt: `sizeof(std::vector<uint32_t>)` and `sizeof(leftover_entry)` are
modelled as 24 and 48 bytes, and a vector's `capacity()` is modelled as its
size (the capacity growth policy is allocator-defined).  The `size_t`
under- and overflows of the accounting are reproduced with explicit
`% 2 ^ 64` arithmetic. -/

/-- `filter::load_result`. -/
inductive LoadResult
  | LR_OK
  | LR_ERROR
  | LR_MEM_LIMIT_REACHED
deriving DecidableEq, Repr

/-- `leftover_entry` (filter.cpp lines 63-68); the compiled regex is carried
as its source text, matched through the `Oracles`. -/
structure LeftoverEntry where
  shortcuts : List Str
  regexSrc : Option Str
  file_idx : Nat
deriving DecidableEq, Repr

/-- The filter tables plus the fields of `load_line_arg` that the load loop
threads through (`approx_mem`, `result`) and the "keep going" flag returned
by `load_line` to `for_each_line`. -/
structure LoadState where
  unique : UniqueTable
  domains : MultiTable
  shortcuts : MultiTable
  leftovers : List LeftoverEntry
  badfilter : UniqueTable
  approx_mem : Nat
  result : LoadResult
  cont : Bool
deriving Repr

/-- A freshly value-initialised `load_line_arg` over empty tables
(`result` is zero-initialised to `LR_OK`). -/
def initLoadState : LoadState :=
  { unique := [], domains := [], shortcuts := [], leftovers := [], badfilter := [],
    approx_mem := 0, result := .LR_OK, cont := true }

/-- `SHORTCUT_LENGTH` (filter.cpp line 26). -/
def SHORTCUT_LENGTH : Nat := 5

/-- `APPROX_COMPILED_REGEX_BYTES` (filter.cpp line 18). -/
def APPROX_COMPILED_REGEX_BYTES : Nat := 1024

/-- `sizeof(uint32_t)`. -/
def SIZEOF_UINT32 : Nat := 4

/-- `sizeof(std::vector<uint32_t>)`, modelled as 24 bytes. -/
def SIZEOF_VECTOR_U32 : Nat := 24

/-- `sizeof(leftover_entry)`, modelled as 48 bytes. -/
def SIZEOF_LEFTOVER_ENTRY : Nat := 48

/-- `2 ^ 64`, the modulus of `size_t` arithmetic. -/
def W64 : Nat := 2 ^ 64

/-- `approx_rule_mem *= APPROX_FRAGMENTATION_COEF` with the coefficient 1.5:
`size_t` → `double` → `size_t` truncation equals `3 * x / 2` for the small
values arising here. -/
def fragMul (x : Nat) : Nat := 3 * x / 2

/-- The `CHECK_MEM()` condition (filter.cpp lines 258-263). -/
def memTriggers (memLimit approxMem ruleMem : Nat) : Bool :=
  !(memLimit == 0) && decide (memLimit < approxMem + ruleMem)

/-- `filter::impl::load_line` (filter.cpp lines 264-379) for one line.
`fileIdx` is the byte offset `for_each_line` reports for the line.  The
out-of-memory `kh_put` failure paths (which skip the line) are not modelled:
allocation always succeeds.  Note that in the `SHORTCUTS` and leftover
branches the insertion happens *before* `CHECK_MEM()`, so a triggering rule
is still inserted. -/
def load_line (O : Oracles) (hash : Str → Nat) (memLimit : Nat)
    (st : LoadState) (fileIdx : Nat) (line : Str) : LoadState :=
  match rule_parse O line with
  | none => st
  | some r =>
    if r.props.badfilter then
      let h := hash (get_text_without_badfilter r.text)
      let mem := 4 * SIZEOF_UINT32
      if memTriggers memLimit st.approx_mem mem then
        { st with result := .LR_MEM_LIMIT_REACHED, cont := false }
      else
        { st with badfilter := tblInsert st.badfilter h fileIdx,
                  approx_mem := st.approx_mem + mem, result := .LR_OK }
    else
      match r.match_method with
      | .MMID_EXACT | .MMID_SUBDOMAINS =>
        let mem := r.matching_parts.length * 4 * SIZEOF_UINT32
        if memTriggers memLimit st.approx_mem mem then
          { st with result := .LR_MEM_LIMIT_REACHED, cont := false }
        else
          let tables := r.matching_parts.foldl
            (fun (t : UniqueTable × MultiTable) d =>
              put_hash_into_tables (hash d) fileIdx t.1 t.2)
            (st.unique, st.domains)
          { st with unique := tables.1, domains := tables.2,
                    approx_mem := st.approx_mem + mem, result := .LR_OK }
      | .MMID_SHORTCUTS | .MMID_SHORTCUTS_AND_REGEX | .MMID_REGEX =>
        let scOpt :=
          if r.match_method == .MMID_REGEX then none
          else r.matching_parts.find? (fun p => decide (p.length ≥ SHORTCUT_LENGTH))
        match scOpt with
        | some sc =>
          let h := hash (sc.take SHORTCUT_LENGTH)
          let old := tblLookup st.shortcuts h
          let base := if old.isNone then 2 * (SIZEOF_UINT32 + SIZEOF_VECTOR_U32) else 0
          let cap0 := (old.getD []).length
          let newPositions := old.getD [] ++ [fileIdx]
          let m1 := (base + (W64 - cap0 * SIZEOF_UINT32)) % W64
          let m2 := (m1 + newPositions.length * SIZEOF_UINT32) % W64
          let mem := fragMul m2
          let st' := { st with shortcuts := tblInsert st.shortcuts h newPositions }
          if memTriggers memLimit st.approx_mem mem then
            { st' with result := .LR_MEM_LIMIT_REACHED, cont := false }
          else { st' with approx_mem := st.approx_mem + mem, result := .LR_OK }
        | none =>
          let shortcuts := r.matching_parts.map toLowerStr
          let re := if r.match_method == .MMID_SHORTCUTS then none else some (get_regex r)
          let cap0 := st.leftovers.length
          let m1 := (W64 - cap0 * SIZEOF_LEFTOVER_ENTRY) % W64
          let m2 := (m1 + (cap0 + 1) * SIZEOF_LEFTOVER_ENTRY) % W64
          let m3 := m2 + lenSum shortcuts + (if re.isSome then APPROX_COMPILED_REGEX_BYTES else 0)
          let mem := fragMul m3
          let entry : LeftoverEntry := ⟨shortcuts, re, fileIdx⟩
          let st' := { st with leftovers := st.leftovers ++ [entry] }
          if memTriggers memLimit st.approx_mem mem then
            { st' with result := .LR_MEM_LIMIT_REACHED, cont := false }
          else { st' with approx_mem := st.approx_mem + mem, result := .LR_OK }

/-- The second-pass loop of `filter::load`: feed each `(offset, line)` pair to
`load_line` until it asks `for_each_line` to stop. -/
def loadLines (O : Oracles) (hash : Str → Nat) (memLimit : Nat) :
    List (Nat × Str) → LoadState → LoadState
  | [], st => st
  | (idx, line) :: rest, st =>
    if st.cont then loadLines O hash memLimit rest (load_line O hash memLimit st idx line)
    else st

/-- `filter::load` (filter.cpp lines 382-453), reduced to what it returns:
`{load_line_arg.result, load_line_arg.approx_mem}`. -/
def filter_load (O : Oracles) (hash : Str → Nat) (lines : List (Nat × Str)) (memLimit : Nat) :
    LoadResult × Nat :=
  let st := loadLines O hash memLimit lines initLoadState
  (st.result, st.approx_mem)

/-! ## `filter::match` (filter.cpp lines 599-726) -/

/-- The fields of `filter` consulted by `match`: the parameters
(`in_memory`, captured `mtime`) and the five tables. -/
structure MatchFilter where
  in_memory : Bool
  mtime : Int
  unique : UniqueTable
  domains : MultiTable
  shortcuts : MultiTable
  leftovers : List LeftoverEntry
  badfilter : UniqueTable
deriving Repr

/-- `match_arg`'s mutable part: the context and the `outdated` flag. -/
structure MState where
  ctx : MatchCtx
  outdated : Bool
deriving Repr

/-- `filter::impl::check_filter_outdated` (filter.cpp lines 247-256).
`fsMtime` is what `ag::file::get_modification_time` currently returns
(`0` on failure). -/
def check_filter_outdated (f : MatchFilter) (fsMtime : Int) : Bool :=
  if f.in_memory then false
  else fsMtime == 0 || !(fsMtime == f.mtime)

/-- The shared tail of `match_by_file_position`: read the line at the
offset, skip it when its text is already accumulated, else match it. -/
def probeLine (O : Oracles) (readLine : Nat → Option Str) (st : MState) (idx : Nat) : MState :=
  match readLine idx with
  | none => st
  | some line =>
    if !is_unique_rule st.ctx.matched_rules line then st
    else { st with ctx := (match_against_line O st.ctx line).2 }

/-- `filter::impl::match_by_file_position` (filter.cpp lines 599-638).
`readLine` models reading the line that starts at a byte offset of the rule
source (for file-backed filters `ag::file::read_line`, which trims the line;
for in-memory filters `ag::utils::read_line`). -/
def match_by_file_position (O : Oracles) (readLine : Nat → Option Str) (fsMtime : Int)
    (f : MatchFilter) (st : MState) (idx : Nat) : MState :=
  if !f.in_memory then
    if st.outdated || check_filter_outdated f fsMtime then { st with outdated := true }
    else probeLine O readLine st idx
  else probeLine O readLine st idx

/-- The candidate offsets probed by `search_by_domains` (filter.cpp lines
640-661): for each subdomain, the unique-table entry if present, else the
multi-table entry's list. -/
def domainsCandidates (hash : Str → Nat) (f : MatchFilter) (subdomains : List Str) : List Nat :=
  (subdomains.map (fun d =>
    match tblLookup f.unique (hash d) with
    | some p => [p]
    | none =>
      match tblLookup f.domains (hash d) with
      | some ps => ps
      | none => [])).flatten

/-- The candidate offsets probed by `search_by_shortcuts` (filter.cpp lines
663-678): every 5-byte window of the host. -/
def shortcutsCandidates (hash : Str → Nat) (f : MatchFilter) (host : Str) : List Nat :=
  if decide (host.length < SHORTCUT_LENGTH) then []
  else
    ((List.range (host.length - SHORTCUT_LENGTH + 1)).map (fun i =>
      match tblLookup f.shortcuts (hash ((host.drop i).take SHORTCUT_LENGTH)) with
      | some ps => ps
      | none => [])).flatten

/-- The candidate offsets probed by `search_in_leftovers` (filter.cpp lines
680-695): entries whose shortcuts match the host (in the `match_shortcuts`
sense) and whose regex, if any, matches the host. -/
def leftoversCandidates (O : Oracles) (f : MatchFilter) (host : Str) : List Nat :=
  f.leftovers.filterMap (fun e =>
    if !e.shortcuts.isEmpty && !match_shortcuts e.shortcuts host then none
    else if e.regexSrc.isNone then some e.file_idx
    else if O.regexMatch (e.regexSrc.getD []) host then some e.file_idx
    else none)

/-- The candidate offsets probed by `search_badfilter_rules` (filter.cpp
lines 697-707): for each accumulated rule, the badfilter-table entry at the
hash of its text.  (The source iterates `matched_rules` while
`match_against_line` appends to it; the iteration is modelled over the
snapshot taken at entry.) -/
def badfilterCandidates (hash : Str → Nat) (f : MatchFilter) (matched : List Rule) : List Nat :=
  matched.filterMap (fun r => tblLookup f.badfilter (hash r.text))

/-- One `search_*` pass: return immediately when already outdated, else probe
every candidate offset in order. -/
def runSearch (O : Oracles) (readLine : Nat → Option Str) (fsMtime : Int) (f : MatchFilter)
    (st : MState) (cands : List Nat) : MState :=
  if st.outdated then st
  else cands.foldl (match_by_file_position O readLine fsMtime f) st

/-- `filter::match` (filter.cpp lines 709-726): run the four search passes
and report `false` exactly when the filter was found outdated.  (The
`filter_id` stamping of the new accumulator entries is not modelled; the
embedded rules carry no filter id.) -/
def filter_match (O : Oracles) (hash : Str → Nat) (readLine : Nat → Option Str) (fsMtime : Int)
    (f : MatchFilter) (ctx : MatchCtx) : Bool × MatchCtx :=
  let st0 : MState := ⟨ctx, false⟩
  let st1 := runSearch O readLine fsMtime f st0 (domainsCandidates hash f ctx.subdomains)
  let st2 := runSearch O readLine fsMtime f st1 (shortcutsCandidates hash f ctx.host)
  let st3 := runSearch O readLine fsMtime f st2 (leftoversCandidates O f ctx.host)
  let st4 := runSearch O readLine fsMtime f st3 (badfilterCandidates hash f st3.ctx.matched_rules)
  (!st4.outdated, st4.ctx)

/-! ## `ag::file::for_each_line` (file.cpp lines 132-170) -/

/-- The character loop of `for_each_line`, assuming the callback always
returns `true`: collect the `(line_idx, trimmed line)` invocations and return
them together with the final accumulated line and `line_idx`.  (The chunked
reads of the source concatenate to one pass over the file's bytes.) -/
def felLoop : Str → Nat → Str → Nat → (List (Nat × Str) × Str × Nat)
  | [], _, line, li => ([], line, li)
  | c :: rest, i, line, li =>
    if !(c == '\r') && !(c == '\n') then felLoop rest (i + 1) (line ++ [c]) li
    else
      let (out, l, li') := felLoop rest (i + 1) [] (i + 1)
      ((li, ag_trim line) :: out, l, li')

/-- The trailing-line guard `(size_t)(file_size - 1) > line_idx`: for an
empty file the subtraction wraps to `2^64 - 1`, which exceeds any index. -/
def trailingCond (fileSize lineIdx : Nat) : Bool :=
  if fileSize == 0 then true else decide (fileSize - 1 > lineIdx)

/-- `ag::file::for_each_line` on a file with the given bytes, with a callback
that always returns `true`: the list of `(line_idx, line)` invocations. -/
def for_each_line_run (content : Str) : List (Nat × Str) :=
  let (out, line, li) := felLoop content 0 [] 0
  if trailingCond content.length li then out ++ [(li, ag_trim line)] else out

/-- The lines of a file in the sense of the specification: maximal runs of
bytes between newline characters (`\r` or `\n`). -/
def splitNewlines (content : Str) : List Str :=
  content.splitOnP (fun c => c == '\r' || c == '\n')

/-! ## Theorems -/

/-! ### C1 — the `SHORTCUTS` matcher -/

/-- The value computed by the `match_shortcuts` loop once at least one
iteration has run: every part must be found at or after the running seek,
which advances by the part's *length* (not to the match's end). -/
def shortcutsChk (domain : Str) : List Str → Nat → Bool
  | [], _ => true
  | sc :: rest, seek => (strFind sc domain seek).isSome && shortcutsChk domain rest (seek + sc.length)

theorem lenSum_nil : lenSum [] = 0 := rfl

theorem lenSum_cons (a : Str) (l : List Str) : lenSum (a :: l) = a.length + lenSum l := by
  simp [lenSum]

theorem matchShortcutsLoop_true_eq (domain : Str) :
    ∀ (parts : List Str) (seek : Nat),
      matchShortcutsLoop domain parts seek true = shortcutsChk domain parts seek := by
  intro parts
  induction parts with
  | nil => intro seek; rfl
  | cons sc rest ih =>
    intro seek
    simp only [matchShortcutsLoop, shortcutsChk]
    cases h : strFind sc domain seek with
    | none => simp [h]
    | some p => simp [h, ih]

theorem match_shortcuts_eq (parts : List Str) (domain : Str) :
    match_shortcuts parts domain = (!parts.isEmpty && shortcutsChk domain parts 0) := by
  cases parts with
  | nil => rfl
  | cons sc rest =>
    simp only [match_shortcuts, matchShortcutsLoop, shortcutsChk, List.isEmpty_cons,
      Bool.not_false, Bool.true_and]
    cases h : strFind sc domain 0 with
    | none => simp [h]
    | some p => simp [h, matchShortcutsLoop_true_eq]

theorem shortcutsChk_iff (domain : Str) :
    ∀ (parts : List Str) (seek : Nat),
      shortcutsChk domain parts seek = true ↔
        ∀ i (h : i < parts.length), ∃ p,
          seek + lenSum (parts.take i) ≤ p ∧ occursAt (parts.get ⟨i, h⟩) domain p := by
  intro parts
  induction parts with
  | nil =>
    intro seek
    simp [shortcutsChk]
  | cons sc rest ih =>
    intro seek
    simp only [shortcutsChk, Bool.and_eq_true]
    rw [strFind_isSome_iff, ih (seek + sc.length)]
    constructor
    · rintro ⟨⟨p0, hp0, hocc0⟩, hrest⟩ i h
      cases i with
      | zero =>
        exact ⟨p0, by simpa [lenSum] using hp0, hocc0⟩
      | succ j =>
        have hj : j < rest.length := by simpa using h
        obtain ⟨p, hp, ho⟩ := hrest j hj
        refine ⟨p, ?_, by simpa using ho⟩
        have : seek + lenSum ((sc :: rest).take (j + 1)) =
            seek + sc.length + lenSum (rest.take j) := by
          rw [List.take_succ_cons, lenSum_cons]; omega
        omega
    · intro h
      constructor
      · obtain ⟨p, hp, ho⟩ := h 0 (by simp)
        exact ⟨p, by simpa [lenSum] using hp, by simpa using ho⟩
      · intro j hj
        obtain ⟨p, hp, ho⟩ := h (j + 1) (by simpa)
        refine ⟨p, ?_, by simpa using ho⟩
        have : seek + lenSum ((sc :: rest).take (j + 1)) =
            seek + sc.length + lenSum (rest.take j) := by
          rw [List.take_succ_cons, lenSum_cons]; omega
        omega

/-- Oracles used by concrete witnesses and counterexamples: IP parsing never
succeeds, regexes are valid but never match, the shortcut-strip pipeline is
the identity, and no DNS type name is known. -/
def oraclesDummy : Oracles :=
  { isIp := fun _ => false, isValidIp4 := fun _ => false, isValidIp6 := fun _ => false,
    sockAddrValid := fun _ => false, addrToStr := fun s => s, regexValid := fun _ => true,
    regexMatch := fun _ _ => false, shortcutStrip := fun s => s, getRrType := fun _ => 0,
    parseDnsrewrite := fun _ => none }

/-- A `SHORTCUTS` rule (as produced by parsing `ab*b`) whose parts overlap. -/
def c1CounterRule : Rule :=
  { text := str "ab*b", content := .adblock {} none, match_method := .MMID_SHORTCUTS,
    matching_parts := [str "ab", str "b"], dnstype := none }

/-- **C1, counterexample.**  For the `SHORTCUTS` rule with parts
`["ab", "b"]` and host `"xab"`, the code reports a match (the second search
starts at index 2 = the sum of the previous parts' lengths, and finds the
`b` *inside* the match of `ab`), while the claimed procedure — each search
starting where the previous part's match ended (position 1 + length 2 = 3) —
reports no match.  So the claim's "exactly when" is false at this input. -/
theorem C1_counterexample :
    match_pattern oraclesDummy c1CounterRule (str "xab") [] = true ∧
      specShortcutsSearch (str "xab") c1CounterRule.matching_parts 0 = false := by
  constructor
  · decide
  · decide

/-- **C1 (amended).**  For every rule with `match_method` `SHORTCUTS` and
every host, the pattern matcher reports a match exactly when the parts list
is non-empty and each `matching_part` occurs in the host at or after the
*sum of the lengths of the preceding parts* — each substring search starts at
the previous search's start position plus the previous part's length, not at
the position where the previous part's match ended. -/
theorem C1_shortcuts_characterization (O : Oracles) (r : Rule) (host : Str) (subs : List Str)
    (hm : r.match_method = .MMID_SHORTCUTS) :
    match_pattern O r host subs = true ↔
      r.matching_parts ≠ [] ∧
        ∀ i (h : i < r.matching_parts.length), ∃ p,
          lenSum (r.matching_parts.take i) ≤ p ∧
            occursAt (r.matching_parts.get ⟨i, h⟩) host p := by
  have hmp : match_pattern O r host subs = match_shortcuts r.matching_parts host := by
    unfold match_pattern
    rw [hm]
  rw [hmp, match_shortcuts_eq, Bool.and_eq_true, Bool.not_eq_true']
  rw [List.isEmpty_eq_false_iff_exists_mem]
  rw [shortcutsChk_iff host r.matching_parts 0]
  simp only [Nat.zero_add]
  constructor
  · rintro ⟨⟨x, hx⟩, h⟩
    refine ⟨fun he => ?_, h⟩
    rw [he] at hx
    simp at hx
  · rintro ⟨hne, h⟩
    refine ⟨?_, h⟩
    cases hr : r.matching_parts with
    | nil => exact absurd hr hne
    | cons a l => exact ⟨a, by simp [hr]⟩

/-- A `SHORTCUTS` rule with the single part `"abc"`. -/
def c1WitnessRule : Rule :=
  { text := str "*abc", content := .adblock {} none, match_method := .MMID_SHORTCUTS,
    matching_parts := [str "abc"], dnstype := none }

/-- Witness for C1: the characterization applied at a concrete rule and
host. -/
theorem C1_witness :
    match_pattern oraclesDummy c1WitnessRule (str "xabcy") [] = true := by
  refine (C1_shortcuts_characterization oraclesDummy c1WitnessRule (str "xabcy") [] rfl).mpr
    ⟨by decide, ?_⟩
  intro i h
  have hi : i = 0 := by
    have h1 : i < 1 := by simpa [c1WitnessRule] using h
    omega
  subst hi
  refine ⟨1, by decide, ?_⟩
  have hget : c1WitnessRule.matching_parts.get ⟨0, h⟩ = str "abc" := rfl
  rw [hget]
  decide

/-! ### C2 — each hash lives in at most one of `unique_domains` / `domains` -/

theorem tblLookup_erase {α : Type} (t : List (Nat × α)) (h h' : Nat) :
    tblLookup (tblErase t h) h' = if h' = h then none else tblLookup t h' := by
  induction t with
  | nil => simp [tblErase, tblLookup]
  | cons e rest ih =>
    by_cases he : e.1 = h
    · have hbeq : (e.1 == h) = true := beq_iff_eq.mpr he
      have hstep : tblErase (e :: rest) h = tblErase rest h := by
        simp [tblErase, List.filter_cons, hbeq]
      rw [hstep, ih]
      by_cases h'h : h' = h
      · simp [h'h]
      · rw [if_neg h'h, if_neg h'h]
        have hb : (e.1 == h') = false :=
          beq_eq_false_iff_ne.mpr (by rw [he]; exact fun hc => h'h hc.symm)
        simp [tblLookup, hb]
    · have hbeq : (e.1 == h) = false := beq_eq_false_iff_ne.mpr he
      have hstep : tblErase (e :: rest) h = e :: tblErase rest h := by
        simp [tblErase, List.filter_cons, hbeq]
      rw [hstep]
      by_cases h'e : e.1 = h'
      · have hne : ¬h' = h := fun hc => he (h'e.trans hc)
        have hbeq' : (e.1 == h') = true := beq_iff_eq.mpr h'e
        simp [tblLookup, hbeq', hne]
      · have hbeq' : (e.1 == h') = false := beq_eq_false_iff_ne.mpr h'e
        simp [tblLookup, hbeq', ih]

theorem tblLookup_append {α : Type} (t1 t2 : List (Nat × α)) (h : Nat) :
    tblLookup (t1 ++ t2) h =
      (match tblLookup t1 h with
       | some v => some v
       | none => tblLookup t2 h) := by
  induction t1 with
  | nil => simp [tblLookup]
  | cons e rest ih =>
    simp only [List.cons_append, tblLookup]
    by_cases he : e.1 = h
    · simp [he]
    · have : (e.1 == h) = false := by rw [beq_eq_false_iff_ne]; exact he
      simp [this, ih]

theorem tblLookup_insert {α : Type} (t : List (Nat × α)) (h : Nat) (v : α) (h' : Nat) :
    tblLookup (tblInsert t h v) h' = if h' = h then some v else tblLookup t h' := by
  unfold tblInsert
  rw [tblLookup_append, tblLookup_erase]
  by_cases h'h : h' = h
  · simp [h'h, tblLookup]
  · have hb : (h == h') = false := by
      rw [beq_eq_false_iff_ne]; exact fun hc => h'h hc.symm
    rw [if_neg h'h, if_neg h'h]
    simp only [tblLookup, hb, if_neg (by simp : ¬false = true)]
    cases tblLookup t h' <;> rfl

/-- The invariant of claim C2: every hash key is present in at most one of
the unique table and the multi table. -/
def tablesDisjoint (unique : UniqueTable) (multi : MultiTable) : Prop :=
  ∀ h, tblLookup unique h = none ∨ tblLookup multi h = none

/-- A sequence of `put_hash_into_tables` insertions applied to a pair of
tables. -/
def applyPuts (ops : List (Nat × Nat)) (t : UniqueTable × MultiTable) :
    UniqueTable × MultiTable :=
  ops.foldl (fun t op => put_hash_into_tables op.1 op.2 t.1 t.2) t

theorem put_preserves_disjoint (h fi : Nat) (u : UniqueTable) (m : MultiTable)
    (hd : tablesDisjoint u m) :
    tablesDisjoint (put_hash_into_tables h fi u m).1 (put_hash_into_tables h fi u m).2 := by
  intro h'
  unfold put_hash_into_tables
  cases hm : tblLookup m h with
  | some ps =>
    simp only
    by_cases h'h : h' = h
    · subst h'h
      rcases hd h' with hu | hmn
      · exact Or.inl hu
      · rw [hmn] at hm; exact absurd hm (by simp)
    · rw [tblLookup_insert, if_neg h'h]
      exact hd h'
  | none =>
    cases hu : tblLookup u h with
    | none =>
      simp only
      by_cases h'h : h' = h
      · subst h'h; exact Or.inr hm
      · rw [tblLookup_insert, if_neg h'h]
        exact hd h'
    | some s =>
      simp only
      by_cases h'h : h' = h
      · subst h'h
        rw [tblLookup_erase, if_pos rfl]
        exact Or.inl rfl
      · rw [tblLookup_erase, if_neg h'h, tblLookup_insert, if_neg h'h]
        exact hd h'

theorem applyPuts_preserves_disjoint (ops : List (Nat × Nat)) :
    ∀ (t : UniqueTable × MultiTable), tablesDisjoint t.1 t.2 →
      tablesDisjoint (applyPuts ops t).1 (applyPuts ops t).2 := by
  induction ops with
  | nil => intro t hd; exact hd
  | cons op rest ih =>
    intro t hd
    exact ih _ (put_preserves_disjoint op.1 op.2 t.1 t.2 hd)

/-- **C2.**  After any sequence of `put_hash_into_tables` insertions starting
from empty tables, every hash key is present in at most one of the unique
table and the multi table; and the second insertion of a key removes it from
the unique table and creates a multi entry holding the previously stored
offset followed by the new one. -/
theorem C2_put_hash_disjoint_and_promotion :
    (∀ ops : List (Nat × Nat),
      tablesDisjoint (applyPuts ops ([], [])).1 (applyPuts ops ([], [])).2) ∧
    (∀ (u : UniqueTable) (m : MultiTable) (h s fi : Nat),
      tblLookup u h = some s → tblLookup m h = none →
        tblLookup (put_hash_into_tables h fi u m).1 h = none ∧
        tblLookup (put_hash_into_tables h fi u m).2 h = some [s, fi]) := by
  constructor
  · intro ops
    exact applyPuts_preserves_disjoint ops ([], []) (fun _ => Or.inl rfl)
  · intro u m h s fi hu hm
    unfold put_hash_into_tables
    rw [hm, hu]
    constructor
    · simp only
      rw [tblLookup_erase, if_pos rfl]
    · simp only
      rw [tblLookup_insert, if_pos rfl]

/-- Witness for C2: promoting hash `7` on its second insertion moves the
stored offset `1` into the multi table and appends the new offset `2`. -/
theorem C2_witness :
    tblLookup (put_hash_into_tables 7 2 [(7, 1)] []).1 7 = none ∧
      tblLookup (put_hash_into_tables 7 2 [(7, 1)] []).2 7 = some [1, 2] :=
  C2_put_hash_disjoint_and_promotion.2 [(7, 1)] [] 7 1 2 (by decide) (by decide)

/-! ### C3 — `for_each_line` loses a short final line with no newline -/

/-- **C3 (failing input).**  On the 4-byte file `"ab\nc"` (no trailing
newline) the `for_each_line` loop invokes the callback once, for `"ab"` at
offset 0 only, although the file's non-empty lines are `"ab"` *and* `"c"`:
the trailing-line guard `(size_t)(file_size - 1) > line_idx` compares
`3 > 3` and never emits the final one-character line.  This contradicts the
claim (and the spec's stated intent) that every non-empty line is emitted
exactly once, on files with and without a trailing newline. -/
theorem C3_for_each_line_drops_final_line :
    for_each_line_run (str "ab\nc") = [(0, str "ab")] ∧
      ((splitNewlines (str "ab\nc")).map ag_trim).filter (fun l => !l.isEmpty) =
        [str "ab", str "c"] := by
  constructor
  · decide
  · decide

/-! ### C9 — `remove_port` -/

theorem findChar_append_of_not_mem {c : Char} {l1 : Str} (l2 : Str) (h : c ∉ l1) :
    findChar c (l1 ++ l2) = (findChar c l2).map (· + l1.length) := by
  induction l1 with
  | nil =>
    simp only [List.nil_append, List.length_nil]
    cases findChar c l2 <;> simp
  | cons x xs ih =>
    have hx : (x == c) = false :=
      beq_eq_false_iff_ne.mpr (fun hc => h (hc ▸ List.mem_cons_self x xs))
    simp only [List.cons_append, findChar, List.append_eq, hx,
      if_neg (by simp : ¬false = true)]
    rw [ih (fun hm => h (List.mem_cons_of_mem x hm))]
    cases findChar c l2 <;> simp +arith

theorem findChar_append_of_some {c : Char} {l1 : Str} {j : Nat} (l2 : Str)
    (h : findChar c l1 = some j) :
    findChar c (l1 ++ l2) = some j := by
  induction l1 generalizing j with
  | nil => simp [findChar] at h
  | cons x xs ih =>
    simp only [findChar, List.cons_append, List.append_eq] at h ⊢
    by_cases hx : (x == c) = true
    · simp only [hx, if_pos rfl] at h ⊢; exact h
    · rw [Bool.not_eq_true] at hx
      simp only [hx, if_neg (by simp : ¬false = true)] at h ⊢
      cases hj : findChar c xs with
      | none => rw [hj] at h; simp at h
      | some j0 =>
        rw [hj] at h
        rw [ih hj]
        exact h

theorem findChar_isSome_of_mem {c : Char} {s : Str} (h : c ∈ s) :
    (findChar c s).isSome = true := by
  induction s with
  | nil => simp at h
  | cons x xs ih =>
    by_cases hx : (x == c) = true
    · simp [findChar, hx]
    · rw [Bool.not_eq_true] at hx
      have hm : c ∈ xs := by
        rcases List.mem_cons.mp h with h1 | h2
        · exact absurd (beq_iff_eq.mpr h1.symm) (by simp [hx])
        · exact h2
      simp only [findChar, hx, if_neg (by simp : ¬false = true)]
      cases hj : findChar c xs with
      | none => exact absurd (ih hm) (by rw [hj]; simp)
      | some j => simp

theorem findChar_lt_length {c : Char} {s : Str} {j : Nat} (h : findChar c s = some j) :
    j < s.length := by
  induction s generalizing j with
  | nil => simp [findChar] at h
  | cons x xs ih =>
    simp only [findChar] at h
    by_cases hx : (x == c) = true
    · simp only [hx, if_pos rfl] at h
      cases h; simp
    · rw [Bool.not_eq_true] at hx
      simp only [hx, if_neg (by simp : ¬false = true)] at h
      cases hj : findChar c xs with
      | none => rw [hj] at h; simp at h
      | some j0 =>
        rw [hj] at h
        simp only [Option.map_some'] at h
        obtain rfl : j0 + 1 = j := by injection h
        have hlt := ih hj
        simp only [List.length_cons]
        omega

/-- `remove_port` reduced on the colon positions. -/
theorem remove_port_eq_of_finds {s : Str} {fpos rpos : Nat}
    (hf : findChar ':' s = some fpos) (hr : rfindChar ':' s = some rpos) :
    remove_port s =
      (if (fpos == rpos) && !(fpos == s.length - 1) && is_valid_port (s.drop (fpos + 1)) then
        ((⟨false, false, true⟩ : PatternMode), s.take fpos)
      else if decide (0 < fpos) && (s.getD (fpos - 1) ' ' == ']') && (s.headD ' ' == '[') then
        ((⟨true, false, true⟩ : PatternMode), (s.drop 1).take (rpos - 2))
      else (pmNone, s)) := by
  unfold remove_port
  rw [hr, hf]

/-- **C9, counterexample.**  For the bracketed-IPv6 pattern `"[::1]:80"` the
claim predicts that `remove_port` strips brackets and port (leaving `"::1"`)
and asserts line-start and line-end; the code instead leaves the pattern
unchanged and asserts nothing, because the branch requires the *first* colon
of the pattern to be directly preceded by `]`, which fails for every IPv6
literal containing colons inside the brackets. -/
theorem C9_counterexample :
    remove_port (str "[::1]:80") = (pmNone, str "[::1]:80") ∧
      remove_port (str "[::1]:80") ≠ (⟨true, false, true⟩, str "::1") := by
  constructor
  · decide
  · decide

/-- **C9 (amended).**  (i) For every pattern with exactly one colon, followed
by a valid port that is not at the very end, `remove_port` strips the
`:port` suffix and asserts line-end only.  (ii) For a bracketed pattern
`[body]:port` whose body contains a colon (as every bracketed IPv6 literal
does) and no `]`, and whose port part contains no colon, `remove_port`
returns the pattern unchanged and asserts nothing — the bracketed branch
fires only when the first colon is directly preceded by `]`. -/
theorem C9_remove_port_behaviour :
    (∀ (s : Str) (fpos : Nat),
      findChar ':' s = some fpos → rfindChar ':' s = some fpos →
      fpos ≠ s.length - 1 → is_valid_port (s.drop (fpos + 1)) = true →
      remove_port s = (⟨false, false, true⟩, s.take fpos)) ∧
    (∀ (body port : Str),
      ':' ∈ body → ']' ∉ body → ':' ∉ port →
      remove_port ('[' :: (body ++ ']' :: ':' :: port)) =
        (pmNone, '[' :: (body ++ ']' :: ':' :: port))) := by
  constructor
  · intro s fpos hf hr hend hport
    rw [remove_port_eq_of_finds hf hr]
    have h2 : (fpos == s.length - 1) = false := beq_eq_false_iff_ne.mpr hend
    have hc : ((fpos == fpos) && !(fpos == s.length - 1)
        && is_valid_port (s.drop (fpos + 1))) = true := by
      rw [beq_self_eq_true, h2, hport]
      rfl
    rw [if_pos hc]
  · intro body port hbc hbr hpc
    -- the first colon: 1 + (index of the first colon of `body`)
    obtain ⟨jb, hjb⟩ : ∃ jb, findChar ':' body = some jb := by
      have := findChar_isSome_of_mem hbc
      cases h : findChar ':' body with
      | none => rw [h] at this; simp at this
      | some j => exact ⟨j, rfl⟩
    have hjlt : jb < body.length := findChar_lt_length hjb
    have hfull : findChar ':' ('[' :: (body ++ ']' :: ':' :: port)) = some (jb + 1) := by
      have h1 : (('[' : Char) == ':') = false := by decide
      simp only [findChar, h1, if_neg (by simp : ¬false = true)]
      rw [findChar_append_of_some (']' :: ':' :: port) hjb]
      rfl
    -- the last colon: position body.length + 2
    have hrev : ('[' :: (body ++ ']' :: ':' :: port)).reverse =
        port.reverse ++ ':' :: ']' :: (body.reverse ++ ['[']) := by
      simp
    have hrfind : rfindChar ':' ('[' :: (body ++ ']' :: ':' :: port)) =
        some (body.length + 2) := by
      unfold rfindChar
      rw [hrev]
      rw [findChar_append_of_not_mem (':' :: ']' :: (body.reverse ++ ['['])) (by
        intro hm; exact hpc (List.mem_reverse.mp hm))]
      have : findChar ':' (':' :: ']' :: (body.reverse ++ ['['])) = some 0 := by
        simp [findChar]
      rw [this]
      simp only [Option.map_some']
      congr 1
      simp only [List.length_cons, List.length_append, List.length_reverse]
      omega
    rw [remove_port_eq_of_finds hfull hrfind]
    have hne : ((jb + 1) == body.length + 2) = false :=
      beq_eq_false_iff_ne.mpr (by omega)
    have hgetne : (('[' :: (body ++ ']' :: ':' :: port)).getD (jb + 1 - 1) ' ' == ']') = false := by
      rw [beq_eq_false_iff_ne]
      simp only [Nat.add_sub_cancel]
      cases jb with
      | zero =>
        simp only [List.getD_cons_zero]
        decide
      | succ j =>
        have hj' : j < body.length := by omega
        have hstep : ('[' :: (body ++ ']' :: ':' :: port)).getD (j + 1) ' ' = body.getD j ' ' := by
          simp only [List.getD_cons_succ]
          rw [List.getD_append]
          exact hj'
        rw [hstep]
        intro hc
        have hmem : body.getD j ' ' ∈ body := by
          rw [List.getD_eq_getElem body ' ' hj']
          exact List.getElem_mem hj'
        exact hbr (hc ▸ hmem)
    have hc1 : (((jb + 1) == body.length + 2)
        && !((jb + 1) == ('[' :: (body ++ ']' :: ':' :: port)).length - 1)
        && is_valid_port (('[' :: (body ++ ']' :: ':' :: port)).drop (jb + 1 + 1))) = false := by
      rw [hne]
      rfl
    have hdec : decide (0 < jb + 1) = true := by simp
    have hc2 : (decide (0 < jb + 1)
        && (('[' :: (body ++ ']' :: ':' :: port)).getD (jb + 1 - 1) ' ' == ']')
        && (('[' :: (body ++ ']' :: ':' :: port)).headD ' ' == '[')) = false := by
      rw [hgetne, hdec]
      rfl
    simp only [hc1, hc2]
    simp

/-- Witness for C9: both conjuncts applied at concrete patterns —
`"example.com:8080"` loses its port and asserts line-end; `"[::1]:80"` is
left untouched. -/
theorem C9_witness :
    remove_port (str "example.com:8080") = (⟨false, false, true⟩, str "example.com") ∧
      remove_port ('[' :: (str "::1" ++ ']' :: ':' :: str "80")) =
        (pmNone, '[' :: (str "::1" ++ ']' :: ':' :: str "80")) :=
  ⟨C9_remove_port_behaviour.1 (str "example.com:8080") 11 (by decide) (by decide)
      (by decide) (by decide),
   C9_remove_port_behaviour.2 (str "::1") (str "80") (by decide) (by decide) (by decide)⟩

/-! ### C5 — the `$dnstype` modifier gate -/

/-- The admissibility condition stated by claim C5 (modelled from the spec's
words): the context's `rr_type` is contained in the enabled set (mode
`ENABLE`) or not contained in the excluded set (mode `EXCLUDE`). -/
def dnstypeOk (dt : DnstypeInfo) (rr : Nat) : Bool :=
  match dt.mode with
  | .DTMM_ENABLE => dt.types.contains rr
  | .DTMM_EXCLUDE => !dt.types.contains rr

/-- Oracles that know the DNS type name `A` (code 1). -/
def oraclesABC : Oracles :=
  { oraclesDummy with getRrType := fun t => if t == str "A" then 1 else 0 }

/-- A line carrying both `$dnstype` and `$badfilter`. -/
def c5Line : Str := str "example.com$dnstype=A,badfilter"

/-- A match context querying type `MX` (= 15), which the `$dnstype=A` rule
does not enable. -/
def c5Ctx : MatchCtx :=
  { host := str "example.com", subdomains := [str "example.com"],
    matched_rules := [], rr_type := 15 }

/-- **C5, counterexample.**  The rule `example.com$dnstype=A,badfilter`
carries the `DNSTYPE` property and its enabled set does not contain the
context's `rr_type` 15 (MX), yet `match_against_line` *adds it to the
accumulator*: `match_adblock_modifiers` tests `BADFILTER` first and returns
`AMMS_MATCHED_SURELY` without ever consulting the type sets.  This refutes
the claim's "otherwise match_against_line rejects the rule without adding it
to the accumulator". -/
theorem C5_counterexample :
    (rule_parse oraclesABC c5Line).map Rule.props =
      some { exception := false, important := false, badfilter := true,
             dnstype := true, dnsrewrite := false } ∧
    (rule_parse oraclesABC c5Line).map Rule.dnstype = some (some ⟨[1], .DTMM_ENABLE⟩) ∧
    dnstypeOk ⟨[1], .DTMM_ENABLE⟩ 15 = false ∧
    ((match_against_line oraclesABC c5Ctx c5Line).2.matched_rules.map Rule.text) = [c5Line] := by
  refine ⟨?_, ?_, ?_, ?_⟩ <;> decide

theorem match_adblock_modifiers_dnstype (r : Rule) (props : Props)
    (dri : Option DnsrewriteInfo) (dt : DnstypeInfo) (rr : Nat)
    (hc : r.content = .adblock props dri) (hdt : props.dnstype = true)
    (hbf : props.badfilter = false) (hval : r.dnstype = some dt) :
    match_adblock_modifiers r rr =
      (if dnstypeOk dt rr then .AMMS_MATCH_CANDIDATE else .AMMS_NOT_MATCHED) := by
  have hp : r.props = props := by rw [Rule.props, hc]
  obtain ⟨types, mode⟩ := dt
  unfold match_adblock_modifiers
  rw [hp, hbf, hdt, hval]
  simp only [Bool.false_eq_true, if_false, if_true, Option.getD_some]
  cases mode with
  | DTMM_ENABLE =>
    simp only [dnstypeOk]
  | DTMM_EXCLUDE =>
    simp only [dnstypeOk]
    by_cases h : types.contains rr = true
    · simp [h]
    · have hf : types.contains rr = false := Bool.eq_false_iff.mpr h
      simp [hf]

/-- **C5 (amended).**  For every candidate adblock rule carrying the
`DNSTYPE` property *and not the `BADFILTER` property*, the rule is accepted
as a match candidate if and only if the context's `rr_type` is contained in
the enabled set (mode `ENABLE`) or not contained in the excluded set (mode
`EXCLUDE`); otherwise `match_against_line` rejects it without touching the
accumulator.  (A rule carrying `BADFILTER` is accepted unconditionally
before the type sets are consulted.) -/
theorem C5_dnstype_gate (O : Oracles) (r : Rule) (props : Props)
    (dri : Option DnsrewriteInfo) (dt : DnstypeInfo) (rr : Nat)
    (hc : r.content = .adblock props dri) (hdt : props.dnstype = true)
    (hbf : props.badfilter = false) (hval : r.dnstype = some dt) :
    (match_adblock_modifiers r rr = .AMMS_MATCH_CANDIDATE ↔ dnstypeOk dt rr = true) ∧
    (dnstypeOk dt rr = false → ∀ (ctx : MatchCtx) (line : Str),
      ctx.rr_type = rr → rule_parse O line = some r →
      match_against_line O ctx line = (false, ctx)) := by
  have hm := match_adblock_modifiers_dnstype r props dri dt rr hc hdt hbf hval
  constructor
  · rw [hm]
    cases h : dnstypeOk dt rr <;> simp [h]
  · intro hko ctx line hrr hparse
    unfold match_against_line
    rw [hparse]
    simp only [Option.map_some', Option.getD_some]
    unfold match_parsed_rule
    rw [hc]
    simp only
    rw [hrr, hm, hko]
    simp

/-- The `$dnstype=A` rule without `badfilter`, as parsed from
`example.com$dnstype=A` (no anchors, so the method is `SHORTCUTS`). -/
def c5WitnessRule : Rule :=
  { text := str "example.com$dnstype=A",
    content := .adblock { exception := false, important := false, badfilter := false,
                          dnstype := true, dnsrewrite := false } none,
    match_method := .MMID_SHORTCUTS, matching_parts := [str "example.com"],
    dnstype := some ⟨[1], .DTMM_ENABLE⟩ }

/-- Witness for C5: an `MX` query is rejected by `example.com$dnstype=A`
without touching the accumulator. -/
theorem C5_witness :
    match_against_line oraclesABC c5Ctx (str "example.com$dnstype=A") = (false, c5Ctx) :=
  (C5_dnstype_gate oraclesABC c5WitnessRule
      { exception := false, important := false, badfilter := false,
        dnstype := true, dnsrewrite := false } none ⟨[1], .DTMM_ENABLE⟩ 15
      rfl rfl rfl rfl).2 (by decide) c5Ctx (str "example.com$dnstype=A") rfl (by decide)

/-! ### C8 — too-wide adblock patterns are dropped -/

/-- **C8.**  Every rule returned by `parse_adblock_rule` fails the
`is_too_wide_rule` test on the very `match_info` the parser computed: a line
whose stripped pattern body is shorter than 3 characters or consists only of
`.` and `*` yields no rule unless the parsed modifiers carry `DNSTYPE` or
`DNSREWRITE`. -/
theorem C8_too_wide (O : Oracles) (s : Str) (r : Rule)
    (h : parse_adblock_rule O s = some r) :
    is_too_wide_rule r.props (extract_match_info (adblockSplit s).1) = false := by
  simp only [parse_adblock_rule] at h
  split at h
  · exact absurd h (by simp)
  · split at h
    · exact absurd h (by simp)
    · next r1 heq =>
      split at h
      · exact absurd h (by simp)
      · next hw =>
        have hw' : is_too_wide_rule r1.props (extract_match_info (adblockSplit s).1) = false :=
          Bool.eq_false_iff.mpr hw
        split at h
        · cases h; exact hw'
        · split at h
          · cases h; exact hw'
          · split at h
            · cases h; exact hw'
            · split at h
              · cases h; exact hw'
              · split at h
                · exact absurd h (by simp)
                · cases h
                  rw [Rule.props_content_eq (chooseRegexMethod_content O _ _)]
                  exact hw'

/-- The rule parsed from `||example.org^`. -/
def c8Rule : Rule :=
  { text := str "||example.org^", content := .adblock {} none,
    match_method := .MMID_SUBDOMAINS, matching_parts := [str "example.org"], dnstype := none }

/-- Witness for C8: `||example.org^` parses to a rule, and that rule is not
too wide. -/
theorem C8_witness :
    parse_adblock_rule oraclesDummy (str "||example.org^") = some c8Rule ∧
      is_too_wide_rule c8Rule.props
        (extract_match_info (adblockSplit (str "||example.org^")).1) = false :=
  ⟨by decide, C8_too_wide oraclesDummy (str "||example.org^") c8Rule (by decide)⟩

/-! ### C4 — the memory budget stops loading -/

theorem loadLines_cons (O : Oracles) (hash : Str → Nat) (memLimit : Nat)
    (idx : Nat) (line : Str) (rest : List (Nat × Str)) (st : LoadState) :
    loadLines O hash memLimit ((idx, line) :: rest) st =
      if st.cont = true then
        loadLines O hash memLimit rest (load_line O hash memLimit st idx line)
      else st := rfl

theorem loadLines_stopped (O : Oracles) (hash : Str → Nat) (memLimit : Nat)
    (l : List (Nat × Str)) (st : LoadState) (h : st.cont = false) :
    loadLines O hash memLimit l st = st := by
  cases l with
  | nil => rfl
  | cons x rest =>
    obtain ⟨idx, line⟩ := x
    rw [loadLines_cons, h]
    simp

theorem loadLines_append (O : Oracles) (hash : Str → Nat) (memLimit : Nat)
    (l1 l2 : List (Nat × Str)) :
    ∀ st : LoadState, loadLines O hash memLimit (l1 ++ l2) st =
      loadLines O hash memLimit l2 (loadLines O hash memLimit l1 st) := by
  induction l1 with
  | nil => intro st; rfl
  | cons x rest ih =>
    intro st
    obtain ⟨idx, line⟩ := x
    rw [List.cons_append, loadLines_cons, loadLines_cons]
    by_cases hcont : st.cont = true
    · rw [if_pos hcont, if_pos hcont]
      exact ih _
    · rw [if_neg hcont, if_neg hcont]
      exact (loadLines_stopped O hash memLimit l2 st (Bool.eq_false_iff.mpr hcont)).symm

/-- Every exit of `load_line` either keeps the `for_each_line` loop going
(leaving `cont` as it was) or stops it having recorded
`LR_MEM_LIMIT_REACHED` — the only `return false` is `CHECK_MEM()`. -/
theorem load_line_cont_or (O : Oracles) (hash : Str → Nat) (memLimit : Nat)
    (st : LoadState) (idx : Nat) (line : Str) :
    (load_line O hash memLimit st idx line).cont = st.cont ∨
      ((load_line O hash memLimit st idx line).cont = false ∧
        (load_line O hash memLimit st idx line).result = .LR_MEM_LIMIT_REACHED) := by
  simp only [load_line]
  repeat' split
  all_goals first
    | (left; rfl)
    | (right; exact ⟨rfl, rfl⟩)

/-- A `load_line` step that stops the loop has recorded
`LR_MEM_LIMIT_REACHED`. -/
theorem load_line_stop_result (O : Oracles) (hash : Str → Nat) (memLimit : Nat)
    (st : LoadState) (idx : Nat) (line : Str)
    (hcont : st.cont = true)
    (hstop : (load_line O hash memLimit st idx line).cont = false) :
    (load_line O hash memLimit st idx line).result = .LR_MEM_LIMIT_REACHED := by
  rcases load_line_cont_or O hash memLimit st idx line with h | ⟨_, hres⟩
  · rw [h, hcont] at hstop
    exact absurd hstop (by simp)
  · exact hres

/-- **C4.**  For every rule source (a list of `(offset, line)` pairs) and
non-zero memory limit, if processing the prefix keeps going and the next
line's insertion trips `CHECK_MEM()`, then `filter::load` returns
`LR_MEM_LIMIT_REACHED` and the final load state — all five index tables
included — equals the state right after the triggering line: no rule from
any later line is inserted into any table. -/
theorem C4_mem_limit (O : Oracles) (hash : Str → Nat) (memLimit : Nat)
    (pre : List (Nat × Str)) (idx : Nat) (line : Str) (suf : List (Nat × Str))
    (hlim : memLimit ≠ 0)
    (hpre : (loadLines O hash memLimit pre initLoadState).cont = true)
    (htrig : (load_line O hash memLimit (loadLines O hash memLimit pre initLoadState)
        idx line).cont = false) :
    (filter_load O hash (pre ++ (idx, line) :: suf) memLimit).1 = .LR_MEM_LIMIT_REACHED ∧
      loadLines O hash memLimit (pre ++ (idx, line) :: suf) initLoadState =
        load_line O hash memLimit (loadLines O hash memLimit pre initLoadState) idx line := by
  have hfull : loadLines O hash memLimit (pre ++ (idx, line) :: suf) initLoadState =
      load_line O hash memLimit (loadLines O hash memLimit pre initLoadState) idx line := by
    rw [loadLines_append, loadLines_cons, if_pos hpre]
    exact loadLines_stopped O hash memLimit suf _ htrig
  refine ⟨?_, hfull⟩
  unfold filter_load
  dsimp only
  rw [hfull]
  exact load_line_stop_result O hash memLimit _ idx line hpre htrig

/-- A connected-sum style hash usable in concrete runs. -/
def hashFold (s : Str) : Nat :=
  s.foldl (fun a c => a * 257 + (c.toNat + 1)) 0

/-- Witness for C4: with limit 1 byte, the first domain rule `a.com` trips
the check (16 bytes needed), the loader reports `LR_MEM_LIMIT_REACHED` and
the later line `b.com` is never inserted. -/
theorem C4_witness :
    (filter_load oraclesDummy hashFold [(0, str "a.com"), (6, str "b.com")] 1).1 =
        .LR_MEM_LIMIT_REACHED ∧
      loadLines oraclesDummy hashFold 1 [(0, str "a.com"), (6, str "b.com")] initLoadState =
        load_line oraclesDummy hashFold 1
          (loadLines oraclesDummy hashFold 1 [] initLoadState) 0 (str "a.com") :=
  C4_mem_limit oraclesDummy hashFold 1 [] 0 (str "a.com") [(6, str "b.com")]
    (by decide) (by decide) (by decide)

/-! ### Shared lemmas about the match pipeline -/

theorem match_parsed_rule_matched (O : Oracles) (ctx : MatchCtx) (r : Rule) :
    (match_parsed_rule O ctx r).2.matched_rules = ctx.matched_rules ∨
      (match_parsed_rule O ctx r).2.matched_rules = ctx.matched_rules ++ [r] := by
  unfold match_parsed_rule
  dsimp only
  split
  · exact Or.inl rfl
  · exact Or.inr rfl
  · dsimp only
    split
    · exact Or.inr rfl
    · exact Or.inl rfl

theorem match_against_line_matched (O : Oracles) (ctx : MatchCtx) (line : Str) :
    (match_against_line O ctx line).2.matched_rules = ctx.matched_rules ∨
      ∃ r, rule_parse O line = some r ∧
        (match_against_line O ctx line).2.matched_rules = ctx.matched_rules ++ [r] := by
  unfold match_against_line
  cases hp : rule_parse O line with
  | none => left; rfl
  | some r =>
    simp only [Option.map_some', Option.getD_some]
    rcases match_parsed_rule_matched O ctx r with hm | hm
    · exact Or.inl hm
    · exact Or.inr ⟨r, rfl, hm⟩

theorem probeLine_outdated (O : Oracles) (readLine : Nat → Option Str) (st : MState) (idx : Nat) :
    (probeLine O readLine st idx).outdated = st.outdated := by
  unfold probeLine
  cases readLine idx with
  | none => rfl
  | some line =>
    dsimp only
    split
    · rfl
    · rfl

theorem probeLine_matched (O : Oracles) (readLine : Nat → Option Str) (st : MState) (idx : Nat) :
    (probeLine O readLine st idx).ctx.matched_rules = st.ctx.matched_rules ∨
      ∃ line r, readLine idx = some line ∧ rule_parse O line = some r ∧
        is_unique_rule st.ctx.matched_rules line = true ∧
        (probeLine O readLine st idx).ctx.matched_rules = st.ctx.matched_rules ++ [r] := by
  unfold probeLine
  cases hrl : readLine idx with
  | none => left; rfl
  | some line =>
    dsimp only
    split
    · left; rfl
    · next hu =>
      have hu' : is_unique_rule st.ctx.matched_rules line = true := by simpa using hu
      rcases match_against_line_matched O st.ctx line with hm | ⟨r, hp, hm⟩
      · left; exact hm
      · right; exact ⟨line, r, rfl, hp, hu', hm⟩

theorem mbfp_outdated_of_check_false (O : Oracles) (readLine : Nat → Option Str)
    (fsMtime : Int) (f : MatchFilter) (st : MState) (idx : Nat)
    (hc : check_filter_outdated f fsMtime = false) :
    (match_by_file_position O readLine fsMtime f st idx).outdated = st.outdated := by
  unfold match_by_file_position
  split
  · rw [hc]
    split
    · next hcond =>
      simp only [Bool.or_false] at hcond
      simp [hcond]
    · exact probeLine_outdated O readLine st idx
  · exact probeLine_outdated O readLine st idx

theorem mbfp_matched (O : Oracles) (readLine : Nat → Option Str) (fsMtime : Int)
    (f : MatchFilter) (st : MState) (idx : Nat) :
    (match_by_file_position O readLine fsMtime f st idx).ctx.matched_rules
        = st.ctx.matched_rules ∨
      ∃ line r, readLine idx = some line ∧ rule_parse O line = some r ∧
        is_unique_rule st.ctx.matched_rules line = true ∧
        (match_by_file_position O readLine fsMtime f st idx).ctx.matched_rules
          = st.ctx.matched_rules ++ [r] := by
  unfold match_by_file_position
  split
  · split
    · left; rfl
    · exact probeLine_matched O readLine st idx
  · exact probeLine_matched O readLine st idx

theorem mbfp_matched_isPre (O : Oracles) (readLine : Nat → Option Str) (fsMtime : Int)
    (f : MatchFilter) (st : MState) (idx : Nat) :
    st.ctx.matched_rules <+:
      (match_by_file_position O readLine fsMtime f st idx).ctx.matched_rules := by
  rcases mbfp_matched O readLine fsMtime f st idx with h | ⟨_, _, _, _, _, h⟩
  · rw [h]
  · rw [h]; exact List.prefix_append _ _

theorem foldl_mbfp_matched_isPre (O : Oracles) (readLine : Nat → Option Str) (fsMtime : Int)
    (f : MatchFilter) (cands : List Nat) :
    ∀ st : MState, st.ctx.matched_rules <+:
      (cands.foldl (match_by_file_position O readLine fsMtime f) st).ctx.matched_rules := by
  induction cands with
  | nil => intro st; exact List.prefix_refl _
  | cons c rest ih =>
    intro st
    exact (mbfp_matched_isPre O readLine fsMtime f st c).trans (ih _)

theorem foldl_mbfp_outdated_of_check_false (O : Oracles) (readLine : Nat → Option Str)
    (fsMtime : Int) (f : MatchFilter) (cands : List Nat)
    (hc : check_filter_outdated f fsMtime = false) :
    ∀ st : MState, (cands.foldl (match_by_file_position O readLine fsMtime f) st).outdated
      = st.outdated := by
  induction cands with
  | nil => intro st; rfl
  | cons c rest ih =>
    intro st
    rw [List.foldl_cons, ih _, mbfp_outdated_of_check_false O readLine fsMtime f st c hc]

theorem runSearch_outdated_of_check_false (O : Oracles) (readLine : Nat → Option Str)
    (fsMtime : Int) (f : MatchFilter) (st : MState) (cands : List Nat)
    (hc : check_filter_outdated f fsMtime = false) :
    (runSearch O readLine fsMtime f st cands).outdated = st.outdated := by
  unfold runSearch
  split
  · rfl
  · exact foldl_mbfp_outdated_of_check_false O readLine fsMtime f cands hc st

theorem runSearch_nil (O : Oracles) (readLine : Nat → Option Str) (fsMtime : Int)
    (f : MatchFilter) (st : MState) :
    runSearch O readLine fsMtime f st [] = st := by
  unfold runSearch
  split <;> rfl

/-! ### C10 — in-memory filters are never reported outdated -/

/-- **C10.**  (i) `filter::match` on an in-memory filter always returns
`true`.  (ii) When it returns `false`, the filter is file-backed, the
current file mtime is unreadable or differs from the captured one, and at
least one of the four search passes had a candidate to probe. -/
theorem C10_outdatedness (O : Oracles) (hash : Str → Nat) (readLine : Nat → Option Str)
    (fsMtime : Int) (f : MatchFilter) (ctx : MatchCtx) :
    (f.in_memory = true → (filter_match O hash readLine fsMtime f ctx).1 = true) ∧
    ((filter_match O hash readLine fsMtime f ctx).1 = false →
      f.in_memory = false ∧ (fsMtime = 0 ∨ fsMtime ≠ f.mtime) ∧
        (domainsCandidates hash f ctx.subdomains ≠ [] ∨
         shortcutsCandidates hash f ctx.host ≠ [] ∨
         leftoversCandidates O f ctx.host ≠ [] ∨
         badfilterCandidates hash f ctx.matched_rules ≠ [])) := by
  constructor
  · intro hm
    have hc : check_filter_outdated f fsMtime = false := by
      unfold check_filter_outdated
      rw [hm]
      simp
    unfold filter_match
    dsimp only
    rw [runSearch_outdated_of_check_false O readLine fsMtime f _ _ hc,
        runSearch_outdated_of_check_false O readLine fsMtime f _ _ hc,
        runSearch_outdated_of_check_false O readLine fsMtime f _ _ hc,
        runSearch_outdated_of_check_false O readLine fsMtime f _ _ hc]
    rfl
  · intro hfalse
    by_cases hc : check_filter_outdated f fsMtime = true
    case neg =>
      exfalso
      have hc' : check_filter_outdated f fsMtime = false := Bool.eq_false_iff.mpr hc
      unfold filter_match at hfalse
      dsimp only at hfalse
      rw [runSearch_outdated_of_check_false O readLine fsMtime f _ _ hc',
          runSearch_outdated_of_check_false O readLine fsMtime f _ _ hc',
          runSearch_outdated_of_check_false O readLine fsMtime f _ _ hc',
          runSearch_outdated_of_check_false O readLine fsMtime f _ _ hc'] at hfalse
      simp at hfalse
    case pos =>
      have hmem : f.in_memory = false := by
        rcases Bool.eq_false_or_eq_true f.in_memory with h | h
        · exfalso
          unfold check_filter_outdated at hc
          rw [h] at hc
          simp at hc
        · exact h
      have hmt : fsMtime = 0 ∨ fsMtime ≠ f.mtime := by
        unfold check_filter_outdated at hc
        rw [hmem] at hc
        simp only [Bool.false_eq_true, if_false, Bool.or_eq_true, beq_iff_eq,
          Bool.not_eq_true', beq_eq_false_iff_ne] at hc
        exact hc
      refine ⟨hmem, hmt, ?_⟩
      by_contra hall
      push_neg at hall
      obtain ⟨h1, h2, h3, h4⟩ := hall
      unfold filter_match at hfalse
      dsimp only at hfalse
      rw [h1, runSearch_nil] at hfalse
      rw [h2, runSearch_nil] at hfalse
      rw [h3, runSearch_nil] at hfalse
      dsimp only at hfalse
      rw [h4, runSearch_nil] at hfalse
      simp at hfalse

/-- An in-memory filter and a file-backed filter with one candidate. -/
def c10MemFilter : MatchFilter :=
  { in_memory := true, mtime := 5, unique := [], domains := [], shortcuts := [],
    leftovers := [], badfilter := [] }

/-- A file-backed filter whose captured mtime is 5 and whose unique table
holds one offset for the hash of `a.com`. -/
def c10FileFilter : MatchFilter :=
  { in_memory := false, mtime := 5, unique := [(hashFold (str "a.com"), 0)], domains := [],
    shortcuts := [], leftovers := [], badfilter := [] }

/-- The context querying `a.com`. -/
def c10Ctx : MatchCtx :=
  { host := str "a.com", subdomains := [str "a.com"], matched_rules := [], rr_type := 1 }

/-- Witness for C10: the in-memory filter matches successfully, and the
file-backed filter probed at current mtime 7 (≠ 5) reports outdatedness with
the mtime mismatch and a non-empty candidate list. -/
theorem C10_witness :
    (filter_match oraclesDummy hashFold (fun _ => none) 7 c10MemFilter c10Ctx).1 = true ∧
      (c10FileFilter.in_memory = false ∧ ((7 : Int) = 0 ∨ (7 : Int) ≠ c10FileFilter.mtime) ∧
        (domainsCandidates hashFold c10FileFilter c10Ctx.subdomains ≠ [] ∨
         shortcutsCandidates hashFold c10FileFilter c10Ctx.host ≠ [] ∨
         leftoversCandidates oraclesDummy c10FileFilter c10Ctx.host ≠ [] ∨
         badfilterCandidates hashFold c10FileFilter c10Ctx.matched_rules ≠ [])) :=
  ⟨(C10_outdatedness oraclesDummy hashFold (fun _ => none) 7 c10MemFilter c10Ctx).1 rfl,
   (C10_outdatedness oraclesDummy hashFold (fun _ => none) 7 c10FileFilter c10Ctx).2
     (by decide)⟩

/-! ### C7 — duplicate suppression in the accumulator -/

/-- Two accumulator entries share their rule text. -/
def hasDupTexts : List Rule → Bool
  | [] => false
  | r :: rest => rest.any (fun r2 => r2.text == r.text) || hasDupTexts rest

theorem hasDupTexts_append_false {l : List Rule} {r : Rule}
    (hl : hasDupTexts l = false) (hnew : ∀ r2 ∈ l, r2.text ≠ r.text) :
    hasDupTexts (l ++ [r]) = false := by
  induction l with
  | nil => simp [hasDupTexts]
  | cons x rest ih =>
    unfold hasDupTexts at hl
    rw [Bool.or_eq_false_iff] at hl
    obtain ⟨h1, h2⟩ := hl
    simp only [List.cons_append, hasDupTexts, List.append_eq]
    rw [Bool.or_eq_false_iff]
    constructor
    · rw [List.any_append, Bool.or_eq_false_iff]
      refine ⟨h1, ?_⟩
      simp only [List.any_cons, List.any_nil, Bool.or_false]
      rw [beq_eq_false_iff_ne]
      have hx := hnew x (List.mem_cons_self _ _)
      exact fun hc => hx hc.symm
    · exact ih h2 (fun r2 hm => hnew r2 (List.mem_cons_of_mem _ hm))

theorem is_unique_rule_iff (rules : List Rule) (line : Str) :
    is_unique_rule rules line = true ↔ ∀ r ∈ rules, r.text ≠ line := by
  unfold is_unique_rule
  rw [List.all_eq_true]
  constructor
  · intro h r hm hc
    have := h r hm
    rw [hc] at this
    simp at this
  · intro h r hm
    have := h r hm
    simp only [Bool.not_eq_true']
    rw [beq_eq_false_iff_ne]
    exact fun hc => this hc.symm

theorem mbfp_nodup (O : Oracles) (readLine : Nat → Option Str) (fsMtime : Int)
    (f : MatchFilter) (st : MState) (idx : Nat)
    (hparse : ∀ idx line r, readLine idx = some line → rule_parse O line = some r →
      r.text = line)
    (hdup : hasDupTexts st.ctx.matched_rules = false) :
    hasDupTexts (match_by_file_position O readLine fsMtime f st idx).ctx.matched_rules
      = false := by
  rcases mbfp_matched O readLine fsMtime f st idx with h | ⟨line, r, hrl, hp, hu, h⟩
  · rw [h]; exact hdup
  · rw [h]
    apply hasDupTexts_append_false hdup
    intro r2 hm
    rw [hparse idx line r hrl hp]
    exact (is_unique_rule_iff _ _).mp hu r2 hm

theorem foldl_mbfp_nodup (O : Oracles) (readLine : Nat → Option Str) (fsMtime : Int)
    (f : MatchFilter) (cands : List Nat)
    (hparse : ∀ idx line r, readLine idx = some line → rule_parse O line = some r →
      r.text = line) :
    ∀ st : MState, hasDupTexts st.ctx.matched_rules = false →
      hasDupTexts
        ((cands.foldl (match_by_file_position O readLine fsMtime f) st)).ctx.matched_rules
        = false := by
  induction cands with
  | nil => intro st h; exact h
  | cons c rest ih =>
    intro st h
    rw [List.foldl_cons]
    exact ih _ (mbfp_nodup O readLine fsMtime f st c hparse h)

theorem runSearch_nodup (O : Oracles) (readLine : Nat → Option Str) (fsMtime : Int)
    (f : MatchFilter) (st : MState) (cands : List Nat)
    (hparse : ∀ idx line r, readLine idx = some line → rule_parse O line = some r →
      r.text = line)
    (hdup : hasDupTexts st.ctx.matched_rules = false) :
    hasDupTexts (runSearch O readLine fsMtime f st cands).ctx.matched_rules = false := by
  unfold runSearch
  split
  · exact hdup
  · exact foldl_mbfp_nodup O readLine fsMtime f cands hparse st hdup

/-- Oracles for hosts-rule examples: only `0.0.0.0` is a valid IPv4. -/
def oraclesHosts : Oracles :=
  { oraclesDummy with isValidIp4 := fun s => s == str "0.0.0.0" }

/-- A rule source with the same hosts mapping on two lines, distinguished
only by their trailing comments. -/
def c7Read : Nat → Option Str := fun idx =>
  if idx == 0 then some (str "0.0.0.0 dup.com # a")
  else if idx == 1 then some (str "0.0.0.0 dup.com # b")
  else none

/-- An in-memory filter whose domains table sends `dup.com` to both lines. -/
def c7Filter : MatchFilter :=
  { in_memory := true, mtime := 0, unique := [],
    domains := [(hashFold (str "dup.com"), [0, 1])], shortcuts := [],
    leftovers := [], badfilter := [] }

/-- The context querying `dup.com`. -/
def c7Ctx : MatchCtx :=
  { host := str "dup.com", subdomains := [str "dup.com"], matched_rules := [], rr_type := 1 }

/-- **C7, counterexample.**  A hosts rule's text is the line *with the
trailing comment stripped*, while `is_unique_rule` compares the accumulated
texts against the raw candidate line.  Starting from an empty accumulator
(trivially duplicate-free), matching `dup.com` against the two lines
`0.0.0.0 dup.com # a` and `0.0.0.0 dup.com # b` accumulates two rules with
the *same* text `0.0.0.0 dup.com` — the claimed invariant fails on return. -/
theorem C7_counterexample :
    hasDupTexts c7Ctx.matched_rules = false ∧
      hasDupTexts
        (filter_match oraclesHosts hashFold c7Read 0 c7Filter c7Ctx).2.matched_rules
        = true := by
  constructor
  · decide
  · decide

/-- **C7 (amended).**  If no two accumulator entries share a text on entry
*and every line readable from this source parses to a rule whose text equals
the line* (true for adblock rules, whose text is the trimmed line, but not
for hosts rules with inline comments), then no two entries share a text on
return: a candidate whose line equals an accumulated text is skipped before
matching. -/
theorem C7_no_duplicate_texts (O : Oracles) (hash : Str → Nat)
    (readLine : Nat → Option Str) (fsMtime : Int) (f : MatchFilter) (ctx : MatchCtx)
    (hparse : ∀ idx line r, readLine idx = some line → rule_parse O line = some r →
      r.text = line)
    (hdup : hasDupTexts ctx.matched_rules = false) :
    hasDupTexts (filter_match O hash readLine fsMtime f ctx).2.matched_rules = false := by
  unfold filter_match
  dsimp only
  apply runSearch_nodup O readLine fsMtime f _ _ hparse
  apply runSearch_nodup O readLine fsMtime f _ _ hparse
  apply runSearch_nodup O readLine fsMtime f _ _ hparse
  apply runSearch_nodup O readLine fsMtime f _ _ hparse
  exact hdup

/-- A rule source carrying the adblock line `a.com$important` at two
offsets; an adblock rule's text is the (trimmed) line itself. -/
def c7WitnessRead : Nat → Option Str := fun idx =>
  if idx == 0 then some (str "a.com$important")
  else if idx == 1 then some (str "a.com$important")
  else none

/-- The rule `rule_utils::parse` yields for `a.com$important` (no anchors,
so the method is `SHORTCUTS`). -/
def c7WitnessRule : Rule :=
  { text := str "a.com$important",
    content := .adblock { exception := false, important := true, badfilter := false,
                          dnstype := false, dnsrewrite := false } none,
    match_method := .MMID_SHORTCUTS, matching_parts := [str "a.com"], dnstype := none }

/-- An in-memory filter whose domains table sends `a.com` to both offsets
of `c7WitnessRead`. -/
def c7WitnessFilter : MatchFilter :=
  { in_memory := true, mtime := 0, unique := [],
    domains := [(hashFold (str "a.com"), [0, 1])], shortcuts := [],
    leftovers := [], badfilter := [] }

/-- The context querying `a.com`. -/
def c7WitnessCtx : MatchCtx :=
  { host := str "a.com", subdomains := [str "a.com"], matched_rules := [], rr_type := 1 }

/-- Witness for C7: both offsets are probed; the first line is matched and
appended, the second — equal to the accumulated rule's text — is skipped by
`is_unique_rule`, so exactly one entry with text `a.com$important` remains
and the accumulator stays duplicate-free.  The text-equals-line hypothesis
is discharged for the actual lines of this source. -/
theorem C7_witness :
    (filter_match oraclesDummy hashFold c7WitnessRead 0 c7WitnessFilter
        c7WitnessCtx).2.matched_rules.map Rule.text = [str "a.com$important"] ∧
      hasDupTexts
        (filter_match oraclesDummy hashFold c7WitnessRead 0 c7WitnessFilter
          c7WitnessCtx).2.matched_rules = false :=
  ⟨by decide,
   C7_no_duplicate_texts oraclesDummy hashFold c7WitnessRead 0 c7WitnessFilter c7WitnessCtx
    (by
      intro idx line r h1 h2
      unfold c7WitnessRead at h1
      have hp : rule_parse oraclesDummy (str "a.com$important") = some c7WitnessRule := by
        decide
      split at h1
      · cases h1
        rw [hp] at h2
        cases h2
        rfl
      · split at h1
        · cases h1
          rw [hp] at h2
          cases h2
          rfl
        · exact absurd h1 (by simp))
    (by decide)⟩

/-! ### C6 — badfilter annulment -/

theorem props_badfilter_content {B : Rule} (h : B.props.badfilter = true) :
    ∃ p d, B.content = .adblock p d ∧ p.badfilter = true := by
  cases hc : B.content with
  | adblock p d =>
    refine ⟨p, d, rfl, ?_⟩
    rw [Rule.props, hc] at h
    exact h
  | etcHosts ip =>
    rw [Rule.props, hc] at h
    simp at h

theorem match_adblock_modifiers_badfilter {B : Rule} (rr : Nat)
    (hbf : B.props.badfilter = true) :
    match_adblock_modifiers B rr = .AMMS_MATCHED_SURELY := by
  unfold match_adblock_modifiers
  rw [hbf]
  simp

/-- Matching the line of a badfilter rule appends the rule unconditionally
(`AMMS_MATCHED_SURELY`). -/
theorem match_against_line_badfilter (O : Oracles) (ctx : MatchCtx) {lineB : Str} {B : Rule}
    (hparse : rule_parse O lineB = some B) (hbf : B.props.badfilter = true) :
    (match_against_line O ctx lineB).2.matched_rules = ctx.matched_rules ++ [B] := by
  unfold match_against_line
  rw [hparse]
  simp only [Option.map_some', Option.getD_some]
  unfold match_parsed_rule
  obtain ⟨p, d, hcont, hpb⟩ := props_badfilter_content hbf
  rw [hcont]
  dsimp only
  rw [match_adblock_modifiers_badfilter ctx.rr_type hbf]

/-- Probing the offset of a badfilter rule leaves a rule with its text in
the accumulator: either the uniqueness check finds the text already there,
or the rule is appended. -/
theorem probeLine_badfilter (O : Oracles) (readLine : Nat → Option Str) (st : MState)
    {idxB : Nat} {lineB : Str} {B : Rule}
    (hread : readLine idxB = some lineB) (hparse : rule_parse O lineB = some B)
    (hbf : B.props.badfilter = true) (htxt : B.text = lineB) :
    ∃ r' ∈ (probeLine O readLine st idxB).ctx.matched_rules, r'.text = B.text := by
  unfold probeLine
  rw [hread]
  dsimp only
  by_cases hu : is_unique_rule st.ctx.matched_rules lineB = true
  · rw [hu]
    simp only [Bool.not_true, Bool.false_eq_true, if_false]
    refine ⟨B, ?_, rfl⟩
    show B ∈ (match_against_line O st.ctx lineB).2.matched_rules
    rw [match_against_line_badfilter O st.ctx hparse hbf]
    simp
  · have hu' : is_unique_rule st.ctx.matched_rules lineB = false := Bool.eq_false_iff.mpr hu
    rw [hu']
    simp only [Bool.not_false, if_pos rfl]
    have hex : ∃ r2 ∈ st.ctx.matched_rules, (lineB == r2.text) = true := by
      by_contra hno
      push_neg at hno
      have hall : is_unique_rule st.ctx.matched_rules lineB = true := by
        unfold is_unique_rule
        rw [List.all_eq_true]
        intro r2 hm
        simp only [Bool.not_eq_true']
        exact Bool.eq_false_iff.mpr (fun hc => hno r2 hm hc)
      rw [hall] at hu'
      simp at hu'
    obtain ⟨r2, hm, ht⟩ := hex
    exact ⟨r2, hm, by rw [htxt]; exact (beq_iff_eq.mp ht).symm⟩

theorem mbfp_badfilter (O : Oracles) (readLine : Nat → Option Str) (fsMtime : Int)
    (f : MatchFilter) (st : MState) {idxB : Nat} {lineB : Str} {B : Rule}
    (hread : readLine idxB = some lineB) (hparse : rule_parse O lineB = some B)
    (hbf : B.props.badfilter = true) (htxt : B.text = lineB)
    (hc : check_filter_outdated f fsMtime = false) (ho : st.outdated = false) :
    ∃ r' ∈ (match_by_file_position O readLine fsMtime f st idxB).ctx.matched_rules,
      r'.text = B.text := by
  unfold match_by_file_position
  split
  · rw [ho, hc]
    simp only [Bool.or_self, Bool.false_eq_true, if_false]
    exact probeLine_badfilter O readLine st hread hparse hbf htxt
  · exact probeLine_badfilter O readLine st hread hparse hbf htxt

theorem foldl_mbfp_badfilter (O : Oracles) (readLine : Nat → Option Str) (fsMtime : Int)
    (f : MatchFilter) {idxB : Nat} {lineB : Str} {B : Rule}
    (hread : readLine idxB = some lineB) (hparse : rule_parse O lineB = some B)
    (hbf : B.props.badfilter = true) (htxt : B.text = lineB)
    (hc : check_filter_outdated f fsMtime = false) :
    ∀ (cands : List Nat) (st : MState), idxB ∈ cands → st.outdated = false →
      ∃ r' ∈ (cands.foldl (match_by_file_position O readLine fsMtime f) st).ctx.matched_rules,
        r'.text = B.text := by
  intro cands
  induction cands with
  | nil => intro st hmem; simp at hmem
  | cons c rest ih =>
    intro st hmem ho
    rw [List.foldl_cons]
    rcases List.mem_cons.mp hmem with hc1 | hc2
    · subst hc1
      obtain ⟨r', hr'm, hr't⟩ :=
        mbfp_badfilter O readLine fsMtime f st hread hparse hbf htxt hc ho
      exact ⟨r', (foldl_mbfp_matched_isPre O readLine fsMtime f rest _).subset hr'm, hr't⟩
    · exact ih _ hc2 (by
        rw [mbfp_outdated_of_check_false O readLine fsMtime f st c hc]
        exact ho)

/-- **C6 (amended).**  `search_badfilter_rules` probes the badfilter table
with the hash of each accumulated rule's text.  If the table maps the hash
of R's text to the offset of a loaded badfilter rule B (it holds the *most
recently loaded* badfilter rule with that key), R is in the accumulator, and
the filter is not outdated, then after the pass the accumulator contains a
rule with B's text — B itself, unless a rule with that very text was
already accumulated.  B therefore annuls R downstream.  An earlier badfilter
rule overwritten in the table by a later one with the same stripped text is
*not* the rule found. -/
theorem C6_badfilter_annulment (O : Oracles) (hash : Str → Nat)
    (readLine : Nat → Option Str) (fsMtime : Int) (f : MatchFilter) (st : MState)
    (R B : Rule) (idxB : Nat) (lineB : Str)
    (hload : tblLookup f.badfilter (hash R.text) = some idxB)
    (hread : readLine idxB = some lineB)
    (hparse : rule_parse O lineB = some B)
    (hbf : B.props.badfilter = true)
    (htxt : B.text = lineB)
    (hR : R ∈ st.ctx.matched_rules)
    (hc : check_filter_outdated f fsMtime = false)
    (ho : st.outdated = false) :
    ∃ r' ∈ (runSearch O readLine fsMtime f st
        (badfilterCandidates hash f st.ctx.matched_rules)).ctx.matched_rules,
      r'.text = B.text := by
  have hmem : idxB ∈ badfilterCandidates hash f st.ctx.matched_rules := by
    unfold badfilterCandidates
    rw [List.mem_filterMap]
    exact ⟨R, hR, hload⟩
  unfold runSearch
  rw [ho]
  simp only [Bool.false_eq_true, if_false]
  exact foldl_mbfp_badfilter O readLine fsMtime f hread hparse hbf htxt hc
    (badfilterCandidates hash f st.ctx.matched_rules) st hmem ho

/-- The two badfilter lines of the C6 counterexample: their texts differ but
both strip to `x.com$important`. -/
def c6Line1 : Str := str "x.com$badfilter,important"

/-- The later badfilter line, which overwrites the table slot. -/
def c6Line2 : Str := str "x.com$important,badfilter"

/-- The normal rule annulled by the badfilter rules. -/
def c6R : Rule :=
  { text := str "x.com$important",
    content := .adblock { exception := false, important := true, badfilter := false,
                          dnstype := false, dnsrewrite := false } none,
    match_method := .MMID_SHORTCUTS, matching_parts := [str "x.com"], dnstype := none }

/-- The rule source for the C6 counterexample. -/
def c6Read : Nat → Option Str := fun idx =>
  if idx == 0 then some c6Line1
  else if idx == 1 then some c6Line2
  else none

/-- The filter the C6 counterexample loads: both badfilter lines inserted,
the later one owning the table slot. -/
def c6Filter : MatchFilter :=
  { in_memory := true, mtime := 0, unique := [], domains := [], shortcuts := [],
    leftovers := [],
    badfilter := (loadLines oraclesDummy hashFold 0 [(0, c6Line1), (1, c6Line2)]
      initLoadState).badfilter }

/-- The match state with `c6R` already accumulated. -/
def c6St : MState :=
  { ctx := { host := str "x.com", subdomains := [str "x.com"], matched_rules := [c6R],
             rr_type := 1 }, outdated := false }

/-- **C6, counterexample.**  Both badfilter rules strip to `x.com$important`
so they share the table key; loading both leaves the table pointing at the
*second* line.  For B = the rule of line `x.com$badfilter,important` — a
loaded badfilter rule whose stripped text equals R's text, with R in the
accumulator — `search_badfilter_rules` appends the *other* badfilter rule,
and B's text never enters the accumulator: the claim's "appends B" fails. -/
theorem C6_counterexample :
    (loadLines oraclesDummy hashFold 0 [(0, c6Line1), (1, c6Line2)] initLoadState).badfilter
        = [(hashFold (str "x.com$important"), 1)] ∧
      get_text_without_badfilter c6Line1 = c6R.text ∧
      get_text_without_badfilter c6Line2 = c6R.text ∧
      ((rule_parse oraclesDummy c6Line1).map Rule.props).map (fun p => p.badfilter)
        = some (some true) ∧
      ((runSearch oraclesDummy c6Read 0 c6Filter c6St
          (badfilterCandidates hashFold c6Filter c6St.ctx.matched_rules)).ctx.matched_rules.map
        Rule.text) = [str "x.com$important", c6Line2] := by
  refine ⟨?_, ?_, ?_, ?_, ?_⟩ <;> decide

/-- Witness for C6: with a single badfilter rule in the table, the badfilter
pass appends a rule with its text. -/
theorem C6_witness :
    ∃ r' ∈ (runSearch oraclesDummy c6Read 0
        { in_memory := true, mtime := 0, unique := [], domains := [], shortcuts := [],
          leftovers := [],
          badfilter := [(hashFold (str "x.com$important"), 1)] } c6St
        (badfilterCandidates hashFold
          { in_memory := true, mtime := 0, unique := [], domains := [], shortcuts := [],
            leftovers := [],
            badfilter := [(hashFold (str "x.com$important"), 1)] }
          c6St.ctx.matched_rules)).ctx.matched_rules,
      r'.text = (str "x.com$important,badfilter") :=
  C6_badfilter_annulment oraclesDummy hashFold c6Read 0
    { in_memory := true, mtime := 0, unique := [], domains := [], shortcuts := [],
      leftovers := [], badfilter := [(hashFold (str "x.com$important"), 1)] }
    c6St c6R
    { text := c6Line2,
      content := .adblock { exception := false, important := true, badfilter := true,
                            dnstype := false, dnsrewrite := false } none,
      match_method := .MMID_EXACT, matching_parts := [], dnstype := none }
    1 c6Line2 (by decide) (by decide) (by decide) (by decide) (by decide)
    (by decide) (by decide) (by decide)

end DnsLibs
